import Mathlib

/-!
# Checkpoint table of `src/checkpoints/checkpoints.cpp`

A shallow embedding of the class `cryptonote::checkpoints` and of its member
functions, followed by theorems about them.

* Heights are `uint64_t` in the source.  No member function does arithmetic on
  a height (they are only compared and stored), so heights are natural numbers
  and every theorem holds in particular for the heights below `2 ^ 64`.
* `m_points` is a `std::map<uint64_t, crypto::hash>`.  It is embedded as the list
  of its entries in iteration order, which for a `std::map` is strictly
  increasing key order (`checkpoints.WF`).  Iterators are positions in that list.
* A `const` member function is a function of the table that returns its result
  only: it has no table to hand back.
* Functions of this repository that the source calls but does not define (the
  hex codec, the file and DNS collaborators) are fields of `collaborators`, and
  so is what the macro `ADD_CHECKPOINT`, whose definition is not among the
  sources, does after a failed call; the theorems hold for every choice of
  them unless they say otherwise.
* The extraction `ss >> height` belongs to the standard library and is
  embedded as `stdstream.extract_uint64`.
-/

namespace crypto

/-- The POD type `crypto::hash`: a block of bytes, compared bytewise by `==`. -/
structure hash where
  data : List Nat
deriving DecidableEq, Repr

/-- The constant `crypto::null_hash`: thirty-two zero bytes. -/
def null_hash : hash := ⟨List.replicate 32 0⟩

end crypto

namespace stdmap

/-- Entries of a `std::map<uint64_t, crypto::hash>` in iteration order. -/
abbrev entries := List (Nat × crypto.hash)

/-- The keys in iteration order. -/
def keys (m : entries) : List Nat := m.map Prod.fst

/-- Class invariant of `std::map`: iteration visits strictly increasing keys. -/
def ordered (m : entries) : Prop := (keys m).Pairwise (· < ·)

instance (m : entries) : Decidable (ordered m) := by
  unfold ordered; infer_instance

/-- Member `find`: the entry with the given key, `none` for `end()`. -/
def find (m : entries) (k : Nat) : Option (Nat × crypto.hash) :=
  m.find? (fun e => e.1 == k)

/-- Member `count`: 1 when the key is present, else 0. -/
def count (m : entries) (k : Nat) : Nat :=
  match find m k with
  | some _ => 1
  | none => 0

/-- Member `empty`. -/
def empty (m : entries) : Bool := m.isEmpty

/-- Reading `m[k]` (and `m.at(k)`) at a key that is present; at an absent key
`operator[]` yields the value-initialised hash. -/
def get (m : entries) (k : Nat) : crypto.hash :=
  match find m k with
  | some e => e.2
  | none => ⟨List.replicate 32 0⟩

/-- The assignment `m[k] = v`: overwrite the value at `k`, or insert a new entry
at its place in key order. -/
def assign (m : entries) (k : Nat) (v : crypto.hash) : entries :=
  match m with
  | [] => [(k, v)]
  | e :: r =>
    if k < e.1 then (k, v) :: e :: r
    else if k = e.1 then (k, v) :: r
    else e :: assign r k v

/-- Member `upper_bound`: the position of the first entry whose key is greater
than `k`; the length of the list stands for `end()`. -/
def upper_bound (m : entries) (k : Nat) : Nat :=
  match m with
  | [] => 0
  | e :: r => if k < e.1 then 0 else upper_bound r k + 1

/-- The algorithm `std::max_element(first, last, comp)`: the first greatest
element of the range, `none` (the iterator `last`) for an empty range. -/
def max_element {α : Type} (comp : α → α → Bool) : List α → Option α
  | [] => none
  | x :: xs => some (xs.foldl (fun largest y => if comp largest y then y else largest) x)

end stdmap

namespace stdstream

/-- The white space that a formatted extraction skips (`std::isspace` of the
classic locale): space, tab, line feed, vertical tab, form feed, carriage
return. -/
def isspace (c : Char) : Bool :=
  c.toNat = 32 || (decide (9 ≤ c.toNat) && decide (c.toNat ≤ 13))

/-- A decimal digit. -/
def isdigit (c : Char) : Bool := decide (48 ≤ c.toNat) && decide (c.toNat ≤ 57)

/-- The number that a run of decimal digits spells, read after `acc`. -/
def digits_value (acc : Nat) : List Char → Nat
  | [] => acc
  | c :: r => digits_value (10 * acc + (c.toNat - 48)) r

/-- The characters after an optional sign. -/
def after_sign : List Char → List Char
  | [] => []
  | c :: r => if c.toNat = 43 || c.toNat = 45 then r else c :: r

/-- The extraction `ss >> height` of a `uint64_t` from a fresh
`std::stringstream` over the string (lines 274-275), `none` when it fails.  The
stream skips leading white space, reads an optional sign and the decimal
digits that follow, and stops at the first other character.  It fails when
there is no digit, and when the digits spell a number above `2 ^ 64 - 1`; a
minus sign negates the number modulo `2 ^ 64`. -/
def extract_uint64 (s : String) : Option Nat :=
  let cs := s.data.dropWhile isspace
  let digits := (after_sign cs).takeWhile isdigit
  if digits.isEmpty then none
  else if 2 ^ 64 ≤ digits_value 0 digits then none
  else if (cs.head?.map Char.toNat) = some 45 then
    some ((2 ^ 64 - digits_value 0 digits) % 2 ^ 64)
  else some (digits_value 0 digits)

end stdstream

namespace cryptonote

open crypto

/-- One checkpoint line of the json file. -/
structure t_hashline where
  height : Nat
  hash : String
deriving DecidableEq, Repr

/-- The checkpoint lines of the json file. -/
structure t_hash_json where
  hashlines : List t_hashline
deriving DecidableEq, Repr

/-- Modelled from the spec: the enumeration `network_type` is declared outside
this file; the spec names the production, test and staging networks. -/
inductive network_type where
  | MAINNET
  | TESTNET
  | STAGENET
deriving DecidableEq, Repr

/-- What the macro `ADD_CHECKPOINT` does when its call of `add_checkpoint`
returns false: it makes the enclosing function return false at once, or it
carries on with the next statement. -/
inductive on_failure where
  | return_false
  | carry_on
deriving DecidableEq, Repr

/-- Parts of this repository that the source uses and that are defined
elsewhere.
* `hex_to_pod`: `epee::string_tools::hex_to_pod` into a `crypto::hash`,
  `none` when it returns false;
* `file_exists`: `boost::filesystem::exists`;
* `load_t_from_json_file`: `epee::serialization::load_t_from_json_file`,
  `none` when it returns false;
* `load_txt_records_from_dns`: `tools::dns_utils::load_txt_records_from_dns`
  on a list of urls, `none` when it returns false;
* `failed_add`: what the macro `ADD_CHECKPOINT` does after a failed call. -/
structure collaborators where
  hex_to_pod : String → Option hash
  file_exists : String → Bool
  load_t_from_json_file : String → Option t_hash_json
  load_txt_records_from_dns : List String → Option (List String)
  failed_add : on_failure

/-- The class `checkpoints`: its only data member is `m_points`. -/
structure checkpoints where
  m_points : stdmap.entries
deriving DecidableEq, Repr

/-- The constructor `checkpoints::checkpoints()`: an empty table. -/
def checkpoints.new : checkpoints := ⟨[]⟩

/-- Well-formed table: `m_points` satisfies the `std::map` ordering invariant. -/
def checkpoints.WF (self : checkpoints) : Prop := stdmap.ordered self.m_points

instance (self : checkpoints) : Decidable self.WF := by
  unfold checkpoints.WF; infer_instance

/-- The table maps height `h` to hash `x`. -/
def checkpoints.maps (self : checkpoints) (h : Nat) (x : hash) : Prop :=
  stdmap.find self.m_points h = some (h, x)

/-- The table has no entry at height `h`. -/
def checkpoints.absent (self : checkpoints) (h : Nat) : Prop :=
  stdmap.find self.m_points h = none

instance (self : checkpoints) (h : Nat) (x : hash) : Decidable (self.maps h x) := by
  unfold checkpoints.maps; infer_instance

instance (self : checkpoints) (h : Nat) : Decidable (self.absent h) := by
  unfold checkpoints.absent; infer_instance

/-- Member function `checkpoints::add_checkpoint` (lines 74-87).  Returns the
boolean result and the table after the call. -/
def add_checkpoint (E : collaborators) (self : checkpoints) (height : Nat)
    (hash_str : String) : Bool × checkpoints :=
  match E.hex_to_pod hash_str with
  | none => (false, self)
  | some h =>
    if stdmap.count self.m_points height ≠ 0 then
      if h = stdmap.get self.m_points height then
        (true, ⟨stdmap.assign self.m_points height h⟩)
      else (false, self)
    else (true, ⟨stdmap.assign self.m_points height h⟩)

/-- Member function `checkpoints::is_in_checkpoint_zone` (lines 89-92):
`--m_points.end()` is the last entry in iteration order. -/
def is_in_checkpoint_zone (self : checkpoints) (height : Nat) : Bool :=
  !stdmap.empty self.m_points &&
    (match self.m_points.getLast? with
     | some e => decide (height ≤ e.1)
     | none => false)

/-- Member function `checkpoints::check_block` with three parameters (lines
94-110).  The last argument is the value the reference parameter holds on
entry; the result is the returned boolean and the value of `is_a_checkpoint`
on return. -/
def check_block (self : checkpoints) (height : Nat) (h : hash)
    (_is_a_checkpoint : Bool) : Bool × Bool :=
  let it := stdmap.find self.m_points height
  let is_a_checkpoint := it.isSome
  match it with
  | none => (true, is_a_checkpoint)
  | some e => if e.2 = h then (true, is_a_checkpoint) else (false, is_a_checkpoint)

/-- Member function `checkpoints::check_block` with two parameters (lines 112-116). -/
def check_block2 (self : checkpoints) (height : Nat) (h : hash) : Bool :=
  (check_block self height h false).1

/-- Member function `checkpoints::is_alternative_block_allowed` (lines 119-132). -/
def is_alternative_block_allowed (self : checkpoints) (blockchain_height : Nat)
    (block_height : Nat) : Bool :=
  if 0 = block_height then false
  else
    let it := stdmap.upper_bound self.m_points blockchain_height
    if it = 0 then true
    else
      match self.m_points[it - 1]? with
      | some e => decide (e.1 < block_height)
      | none => false

/-- Member function `checkpoints::get_max_height` (lines 134-141).  On an empty
table `max_element` returns `end()`, whose dereference is undefined: `none`. -/
def get_max_height (self : checkpoints) : Option Nat :=
  match stdmap.max_element (fun a b => decide (a.1 < b.1)) self.m_points with
  | some highest => some highest.1
  | none => none

/-- Member function `checkpoints::get_points` (lines 143-146). -/
def get_points (self : checkpoints) : stdmap.entries := self.m_points

/-- The range `for` loop of `check_for_conflicts` (lines 150-157) over the
remaining entries of the other table, followed by `return true`. -/
def check_for_conflicts_loop (self : checkpoints) : stdmap.entries → Bool
  | [] => true
  | pt :: more =>
    if stdmap.count self.m_points pt.1 ≠ 0 then
      if pt.2 = stdmap.get self.m_points pt.1 then check_for_conflicts_loop self more
      else false
    else check_for_conflicts_loop self more

/-- Member function `checkpoints::check_for_conflicts` (lines 148-158). -/
def check_for_conflicts (self other : checkpoints) : Bool :=
  check_for_conflicts_loop self (get_points other)

/-- A property of tables that every call of `add_checkpoint` preserves. -/
def preserved (E : collaborators) (P : checkpoints → Prop) : Prop :=
  ∀ (t : checkpoints) (k : Nat) (s : String), P t → P (add_checkpoint E t k s).2

/-- Modelled from the spec: the macro `ADD_CHECKPOINT(h, hash)` is used at lines
171-203, 236 and 288 and defined in the class header, which is not among the
sources.  It calls `add_checkpoint(h, hash)`; `rest` is the remainder of the
enclosing function, run on the table after the call.  After a failed call the
spec's words are those of `on_failure.carry_on`: a malformed individual hash
aborts just that entry, malformed file and DNS records are skipped and never
escalated, and the DNS step never hard-fails.  The other reading,
`on_failure.return_false`, makes the enclosing function return false at once;
the DNS loop, which decodes the hash string itself and moves on to the next
record before it hands the string to the macro, would fit it.  The sources do
not decide between the two, so the reading is the field `failed_add`. -/
def ADD_CHECKPOINT (E : collaborators) (self : checkpoints) (h : Nat) (hash : String)
    (rest : checkpoints → Bool × checkpoints) : Bool × checkpoints :=
  match add_checkpoint E self h hash with
  | (true, self1) => rest self1
  | (false, self1) =>
    match E.failed_add with
    | on_failure.return_false => (false, self1)
    | on_failure.carry_on => rest self1

/-- The arguments of the `ADD_CHECKPOINT` statements of
`init_default_checkpoints` (lines 171-203), in program order. -/
def default_checkpoint_lines : List (Nat × String) :=
  [
    (1, "851b5a2f42d7331c7caaaadfffcb9ffd74b5550e4511ba63eb1896ac4a52bf23"),
    (10, "9d425b4f22c06b1ba0cc745c668382956549f7c91575fcd7ed2b1671c1f756fe"),
    (100, "76a829f386450eee12c90adcfec1bdd9e66901678ed36488cfeeda16bd67c2af"),
    (1000, "327144eacf486f6acfbe638ea83172a5de97a45cfd24e2f97fa63b70bb545fab"),
    (2000, "5a5b35955132462c65605aea5b9e6939343629b8cbb165cb712127dbb2140faa"),
    (2500, "d53225967b2af50ff86e30ed5e98fc0f9fee03f10cd3cf3148cb81a300aa7d2e"),
    (3000, "f8076b940fd39ca51b34274f64510a8c41ac25848a84f9d3ab368b9d40926c96"),
    (4000, "9da93821bed76cfc4206cb468f230be2218ffb5f1aca47279e52eab2001a86b6"),
    (4500, "2b2295cbfb1ce2b56a00270eeb73cb619b5c2d5643088851c8398ef4d9bfeef8"),
    (5000, "15dd04efb175b0eb53505b8955539fc060e7b52ca0f896ddb8814fa4a93d7be7"),
    (5700, "ebdadcad6b25c34c7878ecf7e3af234f4b761797adfe2deeecb1b4fb4ddad6f4"),
    (10000, "8351d90f74ff78463ca80bb814e6fa8b4d918b4301a3ef4c1365be4b5d0972b5"),
    (15000, "e9e96917c02ddaa0277a010a763f2b3434a7478538d01a5afece5fa10546fb9c"),
    (20000, "237d453ba3940d7a83934527a3f4775368bc9d6c3ebe094485de37e0f80454ec"),
    (30000, "c688cc6e04a001800c1af60073409ec18be851b798b15962b89ba5b42660b8fa"),
    (31500, "48cec3d8af328d18cd198933de0d1bfb5ace456244e36d1af2673e67fa74ab0a"),
    (51000, "5d96a2aee1ce04225c3d80d5a784caa73c3711285e7a332c3aaeb2a746684f7f"),
    (51600, "7cb2405bcbfba74c2161538824e6ba0e2bd2c61d93e4762a60770b9b75d931d9"),
    (60000, "05d77890092dece603d99b3265823b4f44afd227b8d4963e99b892a67f19b664"),
    (70000, "af0f029b4cf45fad60b6e342ca93e73e2e1d0f0a1c760a17da8c7c0174664d75"),
    (80000, "d15c026f57e862d3c6b0f0c5fa4304d0e3dae948d7076dca3120c00ca922fea2"),
    (90000, "0d7fd5629f5e4289e24e5255f1c662c11bc559c5f2d0aab61c9573653604e491"),
    (100000, "88d2e291f5651e6cc236f487e60ca7b375631b10e9647718786947efe004049a"),
    (110000, "caa5bd21e857591b924f787a2d1b6ef3f51c865ff74f40433886dd8718bc705e"),
    (120000, "984133a7e6715c8653af2ff570e413ed37a395926c3c980e2a13d3d5e5abb520"),
    (130000, "272298b07908d8b2b37d10295755b95c1f84c48e47d84de186512e9298fc4963"),
    (140000, "fa7cc6c37ccfe95c5deac1687f8f9e67ddcc36f8f69940d881989f8c2bd750cd"),
    (150000, "5d1939d934eb3ef4b4823576af8f0de08d5335bfe4cde52e4a974d5d1d4e9435"),
    (160000, "92d5da3c45807c6a174edf61873099377513d89260a6d64e1dbd91a9eec634fe"),
    (200000, "36b4ab8c2ced68b2d0ff28e4c8e8b201448b61d9d036f32725103288cf77b85f"),
    (250000, "f362181b52c46f2e9011728bdf3bb5249381d97ba9a776bd052af7e7bd2d4d01"),
    (300000, "a381a4203f1cc22cfb8836a7f375975d2a9f284e0d83867f98c8eb58e81ce70d"),
    (320000, "fc0e714c4c094fdc6f48cbc40800e18942c97f7515c4d0c13019797526ee36bf")
  ]

/-- A straight-line sequence of `ADD_CHECKPOINT` statements followed by
`return true`. -/
def add_checkpoint_lines (E : collaborators) (self : checkpoints) :
    List (Nat × String) → Bool × checkpoints
  | [] => (true, self)
  | l :: ls => ADD_CHECKPOINT E self l.1 l.2 (fun self1 => add_checkpoint_lines E self1 ls)

/-- Member function `checkpoints::init_default_checkpoints` (lines 160-206). -/
def init_default_checkpoints (E : collaborators) (self : checkpoints)
    (nettype : network_type) : Bool × checkpoints :=
  if nettype = network_type.TESTNET then (true, self)
  else if nettype = network_type.STAGENET then (true, self)
  else add_checkpoint_lines E self default_checkpoint_lines

/-- The `for` loop of `load_checkpoints_from_json` (lines 227-241) over the
remaining lines of the file, followed by `return true`. -/
def json_loop (E : collaborators) (prev_max_height : Nat) (self : checkpoints) :
    List t_hashline → Bool × checkpoints
  | [] => (true, self)
  | it :: more =>
    if it.height ≤ prev_max_height then json_loop E prev_max_height self more
    else ADD_CHECKPOINT E self it.height it.hash
      (fun self1 => json_loop E prev_max_height self1 more)

/-- Member function `checkpoints::load_checkpoints_from_json` (lines 208-242).
The result is `none` when the call runs into the undefined `get_max_height()` of an empty
table. -/
def load_checkpoints_from_json (E : collaborators) (self : checkpoints)
    (json_hashfile_fullpath : String) : Option (Bool × checkpoints) :=
  if !E.file_exists json_hashfile_fullpath then some (true, self)
  else
    match get_max_height self with
    | none => none
    | some prev_max_height =>
      match E.load_t_from_json_file json_hashfile_fullpath with
      | none => some (false, self)
      | some hashes => some (json_loop E prev_max_height self hashes.hashlines)

/-- The call `record.find(":")`: the position of the first colon, `none` for `npos`. -/
def find_colon (record : String) : Option Nat :=
  let pos := record.data.indexOf ':'
  if pos < record.data.length then some pos else none

/-- The call `record.substr(0, pos)`. -/
def substr_to (record : String) (pos : Nat) : String := ⟨record.data.take pos⟩

/-- The call `record.substr(pos)`. -/
def substr_from (record : String) (pos : Nat) : String := ⟨record.data.drop pos⟩

/-- The range `for` loop of `load_checkpoints_from_dns` (lines 264-291) over
the remaining records, followed by `return true`. -/
def dns_loop (E : collaborators) (self : checkpoints) :
    List String → Bool × checkpoints
  | [] => (true, self)
  | record :: more =>
    match find_colon record with
    | none => dns_loop E self more
    | some pos =>
      match stdstream.extract_uint64 (substr_to record pos) with
      | none => dns_loop E self more
      | some height =>
        let hashStr := substr_from record (pos + 1)
        match E.hex_to_pod hashStr with
        | none => dns_loop E self more
        | some _ => ADD_CHECKPOINT E self height hashStr
            (fun self1 => dns_loop E self1 more)

/-- The url lists of `load_checkpoints_from_dns` (lines 249-259): all empty. -/
def dns_urls : List String := []

/-- The testnet url list. -/
def testnet_dns_urls : List String := []

/-- The stagenet url list. -/
def stagenet_dns_urls : List String := []

/-- Member function `checkpoints::load_checkpoints_from_dns` (lines 244-292). -/
def load_checkpoints_from_dns (E : collaborators) (self : checkpoints)
    (nettype : network_type) : Bool × checkpoints :=
  match E.load_txt_records_from_dns
      (if nettype = network_type.TESTNET then testnet_dns_urls
       else if nettype = network_type.STAGENET then stagenet_dns_urls
       else dns_urls) with
  | none => (true, self)
  | some records => dns_loop E self records

/-- Member function `checkpoints::load_new_checkpoints` (lines 294-305).  The
statement `result &= ...` always evaluates its right operand, so the DNS step runs whatever the file step
returned. -/
def load_new_checkpoints (E : collaborators) (self : checkpoints)
    (json_hashfile_fullpath : String) (nettype : network_type) (dns : Bool) :
    Option (Bool × checkpoints) :=
  match load_checkpoints_from_json E self json_hashfile_fullpath with
  | none => none
  | some (result, self1) =>
    if dns then
      let r := load_checkpoints_from_dns E self1 nettype
      some (result && r.1, r.2)
    else some (result, self1)

/-- The url list that `load_checkpoints_from_dns` passes on for a network
(line 261). -/
def urls_of (nettype : network_type) : List String :=
  if nettype = network_type.TESTNET then testnet_dns_urls
  else if nettype = network_type.STAGENET then stagenet_dns_urls
  else dns_urls

/-- A DNS record that fails to parse (lines 266-286): it has no `:` separator,
or the extraction of a height from its first part fails, or its second part
does not decode into a hash. -/
def malformed_record (E : collaborators) (record : String) : Bool :=
  match find_colon record with
  | none => true
  | some pos =>
    (stdstream.extract_uint64 (substr_to record pos)).isNone ||
      (E.hex_to_pod (substr_from record (pos + 1))).isNone

/-- The same collaborators, except that every DNS answer comes with its
malformed records removed. -/
def without_malformed (E : collaborators) : collaborators where
  hex_to_pod := E.hex_to_pod
  file_exists := E.file_exists
  load_t_from_json_file := E.load_t_from_json_file
  load_txt_records_from_dns := fun urls =>
    (E.load_txt_records_from_dns urls).map
      (fun records => records.filter (fun r => !malformed_record E r))
  failed_add := E.failed_add

/-- A DNS record that parses into height `h` and hash `y`. -/
def record_parses (E : collaborators) (record : String) (h : Nat) (y : hash) : Prop :=
  ∃ pos, find_colon record = some pos ∧
    stdstream.extract_uint64 (substr_to record pos) = some h ∧
    E.hex_to_pod (substr_from record (pos + 1)) = some y

/-- A numeric height part in the words of the spec: a non-empty string of
decimal digits. -/
def decimal_numeral (s : String) : Bool :=
  !s.data.isEmpty && s.data.all stdstream.isdigit

end cryptonote

/-! ## A concrete choice of the collaborators -/

namespace sample

open crypto cryptonote

/-- The value of a hexadecimal digit, either case. -/
def hex_digit (c : Char) : Option Nat :=
  let n := c.toNat
  if 48 ≤ n ∧ n ≤ 57 then some (n - 48)
  else if 97 ≤ n ∧ n ≤ 102 then some (n - 87)
  else if 65 ≤ n ∧ n ≤ 70 then some (n - 55)
  else none

/-- Decode a string of hexadecimal digit pairs into bytes. -/
def parse_hexstr : List Char → Option (List Nat)
  | [] => some []
  | [_] => none
  | a :: b :: r =>
    match hex_digit a, hex_digit b, parse_hexstr r with
    | some x, some y, some bs => some ((16 * x + y) :: bs)
    | _, _, _ => none

/-- Modelled from the spec: the hex-hash codec is a collaborator that is not
among the sources.  It decodes a hex string (either case) into a fixed-size
hash and fails on a wrong length or a non-hex character; a `crypto::hash` has
32 bytes, so the string has 64 digits. -/
def hex_to_pod (s : String) : Option hash :=
  match parse_hexstr s.data with
  | some bs => if bs.length = 32 then some ⟨bs⟩ else none
  | none => none

/-- Collaborators of a run in which the only file is `path` (when `file` is
given; `some none` is a file that does not parse), DNS resolution answers
`dns` for every url list, and the macro carries on after a failed call. -/
def world (path : String) (file : Option (Option t_hash_json))
    (dns : Option (List String)) : collaborators where
  hex_to_pod := hex_to_pod
  file_exists := fun p => decide (p = path) && file.isSome
  load_t_from_json_file := fun p => if p = path then file.join else none
  load_txt_records_from_dns := fun _ => dns
  failed_add := on_failure.carry_on

/-- No file, no DNS answer. -/
def bare : collaborators := world "" none none

/-- A checkpoint file `checkpoints.json` with two lines and a DNS answer with
two records. -/
def busy : collaborators :=
  world "checkpoints.json"
    (some (some ⟨[⟨500, "851b5a2f42d7331c7caaaadfffcb9ffd74b5550e4511ba63eb1896ac4a52bf23"⟩,
      ⟨2000, "9d425b4f22c06b1ba0cc745c668382956549f7c91575fcd7ed2b1671c1f756fe"⟩]⟩))
    (some ["1000:9d425b4f22c06b1ba0cc745c668382956549f7c91575fcd7ed2b1671c1f756fe",
      "abc:notahex"])

/-- The hash string of the default checkpoint at height 1. -/
def hex1 : String := "851b5a2f42d7331c7caaaadfffcb9ffd74b5550e4511ba63eb1896ac4a52bf23"

/-- The hash string of the default checkpoint at height 10. -/
def hex10 : String := "9d425b4f22c06b1ba0cc745c668382956549f7c91575fcd7ed2b1671c1f756fe"

/-- The bytes that `hex1` spells. -/
def hash1 : hash :=
  ⟨[133, 27, 90, 47, 66, 215, 51, 28, 124, 170, 170, 223, 255, 203, 159, 253,
    116, 181, 85, 14, 69, 17, 186, 99, 235, 24, 150, 172, 74, 82, 191, 35]⟩

/-- The bytes that `hex10` spells. -/
def hash10 : hash :=
  ⟨[157, 66, 91, 79, 34, 192, 107, 27, 160, 204, 116, 92, 102, 131, 130, 149, 101, 73, 247, 201, 21, 117, 252, 215, 237, 43, 22, 113, 193, 247,
    86, 254]⟩

/-- The hash string of the default checkpoint at height 100. -/
def hex100 : String := "76a829f386450eee12c90adcfec1bdd9e66901678ed36488cfeeda16bd67c2af"

/-- The bytes that `hex100` spells. -/
def hash100 : hash :=
  ⟨[118, 168, 41, 243, 134, 69, 14, 238, 18, 201, 10, 220, 254, 193, 189, 217,
    230, 105, 1, 103, 142, 211, 100, 136, 207, 238, 218, 22, 189, 103, 194, 175]⟩

/-- A string that is no hex string of a hash. -/
def nohex : String := "notahex"

/-- The hash whose 32 bytes all equal `b`, for tables written by hand. -/
def H (b : Nat) : hash := ⟨List.replicate 32 b⟩

/-- The table with checkpoints at heights 100 and 200. -/
def table_100_200 : checkpoints := ⟨[(100, H 1), (200, H 2)]⟩

/-- The table with the single checkpoint `5 ↦ hash1`. -/
def table_5 : checkpoints := ⟨[(5, hash1)]⟩

/-- The table with the single checkpoint `1000 ↦ hash1`. -/
def table_1000 : checkpoints := ⟨[(1000, hash1)]⟩

/-- Collaborators of a run whose only file `checkpoints.json` holds the given
lines; DNS resolution fails. -/
def file_world (lines : List t_hashline) : collaborators :=
  world "checkpoints.json" (some (some ⟨lines⟩)) none

/-- Collaborators of a run without a file, in which DNS resolution answers the
given records. -/
def dns_world (records : List String) : collaborators :=
  world "" none (some records)

/-- The DNS record `2000:hex10`. -/
def record_2000 : String :=
  "2000:9d425b4f22c06b1ba0cc745c668382956549f7c91575fcd7ed2b1671c1f756fe"

/-- The malformed DNS record of the spec. -/
def record_bad : String := "abc:notahex"

/-- A DNS record whose height part starts with a digit and is no number. -/
def record_7x : String :=
  "7x:9d425b4f22c06b1ba0cc745c668382956549f7c91575fcd7ed2b1671c1f756fe"

end sample


/-! ## Lemmas about the `std::map` operations -/

namespace stdmap

theorem find_key {m : entries} {k : Nat} {e : Nat × crypto.hash}
    (h : find m k = some e) : e.1 = k := by
  have := List.find?_some h
  simpa using this

theorem find_mem {m : entries} {k : Nat} {e : Nat × crypto.hash}
    (h : find m k = some e) : e ∈ m :=
  List.mem_of_find?_eq_some h

theorem find_none_iff {m : entries} {k : Nat} :
    find m k = none ↔ ∀ e ∈ m, e.1 ≠ k := by
  simp [find, List.find?_eq_none]

theorem find_isSome_iff {m : entries} {k : Nat} :
    (find m k).isSome = true ↔ k ∈ keys m := by
  constructor
  · intro h
    obtain ⟨e, he⟩ := Option.isSome_iff_exists.mp h
    have h1 := find_key he
    have h2 := find_mem he
    exact List.mem_map.mpr ⟨e, h2, h1⟩
  · intro h
    obtain ⟨e, he, hk⟩ := List.mem_map.mp h
    cases hf : find m k with
    | some _ => rfl
    | none => exact absurd hk (find_none_iff.mp hf e he)

theorem find_assign_same (m : entries) (k : Nat) (v : crypto.hash) :
    find (assign m k v) k = some (k, v) := by
  induction m with
  | nil => simp [assign, find]
  | cons e r ih =>
    unfold assign
    by_cases h1 : k < e.1
    · simp [h1, find]
    · by_cases h2 : k = e.1
      · simp [h2, find]
      · have h3 : ¬ e.1 = k := fun h => h2 h.symm
        simp only [h1, h2, if_false]
        have : find (e :: assign r k v) k = find (assign r k v) k := by
          simp [find, List.find?_cons, h3]
        rw [this, ih]

theorem find_assign_other (m : entries) (k j : Nat) (v : crypto.hash) (hjk : j ≠ k) :
    find (assign m k v) j = find m j := by
  induction m with
  | nil =>
    have : ¬ k = j := fun h => hjk h.symm
    simp [assign, find, this]
  | cons e r ih =>
    have hkj : ¬ k = j := fun h => hjk h.symm
    unfold assign
    by_cases h1 : k < e.1
    · simp [h1, find, List.find?_cons, hkj]
    · by_cases h2 : k = e.1
      · have h3 : ¬ e.1 = j := fun h => hkj (h2.trans h)
        simp [h2, find, List.find?_cons, h3]
      · simp only [h1, h2, if_false]
        by_cases h4 : e.1 = j
        · simp [find, List.find?_cons, h4]
        · have e1 : find (e :: assign r k v) j = find (assign r k v) j := by
            simp [find, List.find?_cons, h4]
          have e2 : find (e :: r) j = find r j := by
            simp [find, List.find?_cons, h4]
          rw [e1, e2, ih]

theorem assign_assign (m : entries) (k : Nat) (v : crypto.hash) :
    assign (assign m k v) k v = assign m k v := by
  induction m with
  | nil => simp [assign]
  | cons e r ih =>
    by_cases h1 : k < e.1
    · simp [assign, h1]
    · by_cases h2 : k = e.1
      · simp [assign, h2]
      · simp [assign, h1, h2, ih]

end stdmap

/-! ## Lemmas about `add_checkpoint` -/

namespace cryptonote

open crypto

theorem count_eq_zero_iff (m : stdmap.entries) (k : Nat) :
    stdmap.count m k = 0 ↔ stdmap.find m k = none := by
  unfold stdmap.count
  cases stdmap.find m k <;> simp

theorem get_of_find {m : stdmap.entries} {k : Nat} {e : Nat × hash}
    (h : stdmap.find m k = some e) : stdmap.get m k = e.2 := by
  simp [stdmap.get, h]

theorem add_checkpoint_undecoded (E : collaborators) (t : checkpoints) (h : Nat)
    (s : String) (hs : E.hex_to_pod s = none) :
    add_checkpoint E t h s = (false, t) := by
  simp [add_checkpoint, hs]

theorem add_checkpoint_fresh (E : collaborators) (t : checkpoints) (h : Nat)
    (s : String) (x : hash) (hs : E.hex_to_pod s = some x)
    (ha : stdmap.find t.m_points h = none) :
    add_checkpoint E t h s = (true, ⟨stdmap.assign t.m_points h x⟩) := by
  have hc : stdmap.count t.m_points h = 0 := (count_eq_zero_iff _ _).mpr ha
  simp [add_checkpoint, hs, hc]

theorem add_checkpoint_again (E : collaborators) (t : checkpoints) (h : Nat)
    (s : String) (x : hash) (hs : E.hex_to_pod s = some x)
    (hm : stdmap.find t.m_points h = some (h, x)) :
    add_checkpoint E t h s = (true, ⟨stdmap.assign t.m_points h x⟩) := by
  have hc : stdmap.count t.m_points h ≠ 0 := by
    intro h0
    rw [(count_eq_zero_iff _ _).mp h0] at hm
    cases hm
  have hg : stdmap.get t.m_points h = x := get_of_find hm
  simp [add_checkpoint, hs, hc, hg]

theorem add_checkpoint_clash (E : collaborators) (t : checkpoints) (h : Nat)
    (s : String) (x y : hash) (hs : E.hex_to_pod s = some y)
    (hm : stdmap.find t.m_points h = some (h, x)) (hxy : x ≠ y) :
    add_checkpoint E t h s = (false, t) := by
  have hc : stdmap.count t.m_points h ≠ 0 := by
    intro h0
    rw [(count_eq_zero_iff _ _).mp h0] at hm
    cases hm
  have hg : stdmap.get t.m_points h = x := get_of_find hm
  have hne : ¬ y = x := fun e => hxy e.symm
  simp [add_checkpoint, hs, hc, hg, hne]

/-- Every entry of a table has the form `(k, v)` under `find k`. -/
theorem find_cases (m : stdmap.entries) (k : Nat) :
    stdmap.find m k = none ∨ ∃ v, stdmap.find m k = some (k, v) := by
  cases hf : stdmap.find m k with
  | none => exact Or.inl rfl
  | some e =>
    right
    have hk := stdmap.find_key hf
    exact ⟨e.2, by rw [← hk]⟩

/-- A successful `add_checkpoint` of a string decoding to `x` leaves `h ↦ x`. -/
theorem add_checkpoint_success_maps (E : collaborators) (t : checkpoints) (h : Nat)
    (s : String) (x : hash) (hs : E.hex_to_pod s = some x)
    (hok : (add_checkpoint E t h s).1 = true) :
    (add_checkpoint E t h s).2.maps h x ∧
      (add_checkpoint E t h s).2 = ⟨stdmap.assign t.m_points h x⟩ := by
  rcases find_cases t.m_points h with ha | ⟨v, hv⟩
  · rw [add_checkpoint_fresh E t h s x hs ha]
    exact ⟨stdmap.find_assign_same _ _ _, rfl⟩
  · by_cases hvx : v = x
    · subst hvx
      rw [add_checkpoint_again E t h s v hs hv]
      exact ⟨stdmap.find_assign_same _ _ _, rfl⟩
    · rw [add_checkpoint_clash E t h s v x hs hv hvx] at hok
      cases hok

/-- No call of `add_checkpoint` removes or changes an entry. -/
theorem add_checkpoint_keeps (E : collaborators) (t : checkpoints) (k : Nat)
    (s : String) (h : Nat) (x : hash) (hm : t.maps h x) :
    (add_checkpoint E t k s).2.maps h x := by
  cases hs : E.hex_to_pod s with
  | none => rw [add_checkpoint_undecoded E t k s hs]; exact hm
  | some y =>
    rcases find_cases t.m_points k with ha | ⟨v, hv⟩
    · rw [add_checkpoint_fresh E t k s y hs ha]
      have hne : h ≠ k := by
        intro e
        subst e
        unfold checkpoints.maps at hm
        rw [ha] at hm
        cases hm
      show stdmap.find (stdmap.assign t.m_points k y) h = some (h, x)
      rw [stdmap.find_assign_other _ _ _ _ hne]
      exact hm
    · by_cases hvy : v = y
      · subst hvy
        rw [add_checkpoint_again E t k s v hs hv]
        show stdmap.find (stdmap.assign t.m_points k v) h = some (h, x)
        by_cases hhk : h = k
        · subst hhk
          unfold checkpoints.maps at hm
          rw [hv] at hm
          rw [stdmap.find_assign_same]
          exact hm
        · rw [stdmap.find_assign_other _ _ _ _ hhk]
          exact hm
      · rw [add_checkpoint_clash E t k s v y hs hv hvy]
        exact hm

end cryptonote

/-! ## Lemmas about the loaders -/

namespace cryptonote

open crypto

theorem ADD_CHECKPOINT_true (E : collaborators) (t : checkpoints) (k : Nat)
    (s : String) (rest : checkpoints → Bool × checkpoints)
    (hok : (add_checkpoint E t k s).1 = true) :
    ADD_CHECKPOINT E t k s rest = rest (add_checkpoint E t k s).2 := by
  unfold ADD_CHECKPOINT
  cases hr : add_checkpoint E t k s with
  | mk b t1 =>
    rw [hr] at hok
    cases b with
    | true => rfl
    | false => cases hok

theorem ADD_CHECKPOINT_false (E : collaborators) (t : checkpoints) (k : Nat)
    (s : String) (rest : checkpoints → Bool × checkpoints)
    (hstrict : E.failed_add = on_failure.return_false)
    (hko : (add_checkpoint E t k s).1 = false) :
    ADD_CHECKPOINT E t k s rest = (false, (add_checkpoint E t k s).2) := by
  unfold ADD_CHECKPOINT
  cases hr : add_checkpoint E t k s with
  | mk b t1 =>
    rw [hr] at hko
    cases b with
    | true => cases hko
    | false => simp only [hstrict]

theorem ADD_CHECKPOINT_carry (E : collaborators) (t : checkpoints) (k : Nat)
    (s : String) (rest : checkpoints → Bool × checkpoints)
    (hcarry : E.failed_add = on_failure.carry_on) :
    ADD_CHECKPOINT E t k s rest = rest (add_checkpoint E t k s).2 := by
  unfold ADD_CHECKPOINT
  cases hr : add_checkpoint E t k s with
  | mk b t1 =>
    cases b with
    | true => rfl
    | false => simp only [hcarry]

/-- Under either reading the macro runs the rest of the function on the table
after the call, or the call failed and the function returns false with that
table. -/
theorem ADD_CHECKPOINT_cases (E : collaborators) (t : checkpoints) (k : Nat)
    (s : String) (rest : checkpoints → Bool × checkpoints) :
    ADD_CHECKPOINT E t k s rest = rest (add_checkpoint E t k s).2 ∨
      ((add_checkpoint E t k s).1 = false ∧
        ADD_CHECKPOINT E t k s rest = (false, (add_checkpoint E t k s).2)) := by
  cases hb : (add_checkpoint E t k s).1 with
  | true => exact Or.inl (ADD_CHECKPOINT_true E t k s rest hb)
  | false =>
    cases hf : E.failed_add with
    | return_false => exact Or.inr ⟨rfl, ADD_CHECKPOINT_false E t k s rest hf hb⟩
    | carry_on => exact Or.inl (ADD_CHECKPOINT_carry E t k s rest hf)

theorem ADD_CHECKPOINT_preserves (E : collaborators) (P : checkpoints → Prop)
    (hP : preserved E P) (t : checkpoints) (k : Nat)
    (s : String) (rest : checkpoints → Bool × checkpoints)
    (hrest : ∀ t1 : checkpoints, P t1 → P (rest t1).2)
    (hm : P t) : P (ADD_CHECKPOINT E t k s rest).2 := by
  have hk := hP t k s hm
  rcases ADD_CHECKPOINT_cases E t k s rest with h | ⟨_, h⟩
  · rw [h]
    exact hrest _ hk
  · rw [h]
    exact hk

theorem add_checkpoint_lines_preserves (E : collaborators) (P : checkpoints → Prop)
    (hP : preserved E P) (ls : List (Nat × String)) :
    ∀ t : checkpoints, P t → P (add_checkpoint_lines E t ls).2 := by
  induction ls with
  | nil => intro t hm; exact hm
  | cons l ls ih =>
    intro t hm
    unfold add_checkpoint_lines
    exact ADD_CHECKPOINT_preserves E P hP t l.1 l.2 _ ih hm

theorem init_default_checkpoints_preserves (E : collaborators) (P : checkpoints → Prop)
    (hP : preserved E P) (t : checkpoints) (n : network_type) (hm : P t) :
    P (init_default_checkpoints E t n).2 := by
  unfold init_default_checkpoints
  split
  · exact hm
  · split
    · exact hm
    · exact add_checkpoint_lines_preserves E P hP _ t hm

theorem json_loop_preserves (E : collaborators) (P : checkpoints → Prop)
    (hP : preserved E P) (prev : Nat) (ls : List t_hashline) :
    ∀ t : checkpoints, P t → P (json_loop E prev t ls).2 := by
  induction ls with
  | nil => intro t hm; exact hm
  | cons l ls ih =>
    intro t hm
    unfold json_loop
    split
    · exact ih t hm
    · exact ADD_CHECKPOINT_preserves E P hP t l.height l.hash _ ih hm

theorem dns_loop_preserves (E : collaborators) (P : checkpoints → Prop)
    (hP : preserved E P) (rs : List String) :
    ∀ t : checkpoints, P t → P (dns_loop E t rs).2 := by
  induction rs with
  | nil => intro t hm; exact hm
  | cons r rs ih =>
    intro t hm
    unfold dns_loop
    split
    · exact ih t hm
    · split
      · exact ih t hm
      · simp only []
        split
        · exact ih t hm
        · exact ADD_CHECKPOINT_preserves E P hP t _ _ _ ih hm

theorem load_checkpoints_from_dns_preserves (E : collaborators) (P : checkpoints → Prop)
    (hP : preserved E P) (t : checkpoints) (n : network_type) (hm : P t) :
    P (load_checkpoints_from_dns E t n).2 := by
  unfold load_checkpoints_from_dns
  split
  · exact hm
  · exact dns_loop_preserves E P hP _ t hm

theorem load_checkpoints_from_json_preserves (E : collaborators) (P : checkpoints → Prop)
    (hP : preserved E P) (t : checkpoints) (p : String) (hm : P t)
    (r : Bool × checkpoints) (hr : load_checkpoints_from_json E t p = some r) :
    P r.2 := by
  unfold load_checkpoints_from_json at hr
  split at hr
  · cases hr; exact hm
  · cases hM : get_max_height t with
    | none => rw [hM] at hr; cases hr
    | some M =>
      rw [hM] at hr
      cases hf : E.load_t_from_json_file p with
      | none => rw [hf] at hr; cases hr; exact hm
      | some hashes =>
        rw [hf] at hr
        cases hr
        exact json_loop_preserves E P hP M _ t hm

theorem load_new_checkpoints_preserves (E : collaborators) (P : checkpoints → Prop)
    (hP : preserved E P) (t : checkpoints) (p : String) (n : network_type)
    (dns : Bool) (hm : P t)
    (r : Bool × checkpoints) (hr : load_new_checkpoints E t p n dns = some r) :
    P r.2 := by
  unfold load_new_checkpoints at hr
  cases hj : load_checkpoints_from_json E t p with
  | none => rw [hj] at hr; cases hr
  | some r1 =>
    have h1 := load_checkpoints_from_json_preserves E P hP t p hm r1 hj
    rw [hj] at hr
    obtain ⟨b, t1⟩ := r1
    cases dns with
    | true =>
      simp only [if_true] at hr
      cases hr
      exact load_checkpoints_from_dns_preserves E P hP t1 n h1
    | false =>
      simp only [Bool.false_eq_true, if_false] at hr
      cases hr
      exact h1

theorem maps_preserved (E : collaborators) (h : Nat) (x : hash) :
    preserved E (fun t => t.maps h x) :=
  fun t k s hm => add_checkpoint_keeps E t k s h x hm

/-- The first greatest element found by `max_element` is an element of the
range and no element of the range has a greater key. -/
theorem max_element_fold (xs : List (Nat × hash)) :
    ∀ x : Nat × hash,
      let r := xs.foldl (fun largest y => if decide (largest.1 < y.1) then y else largest) x
      r ∈ x :: xs ∧ ∀ e ∈ x :: xs, e.1 ≤ r.1 := by
  induction xs with
  | nil => intro x; simp
  | cons y ys ih =>
    intro x
    simp only [List.foldl_cons]
    by_cases hlt : x.1 < y.1
    · simp only [hlt, decide_True, if_true]
      obtain ⟨hmem, hmax⟩ := ih y
      refine ⟨List.mem_cons_of_mem _ hmem, ?_⟩
      intro e he
      rcases List.mem_cons.mp he with rfl | he
      · exact le_trans (Nat.le_of_lt hlt) (hmax y (List.mem_cons_self _ _))
      · exact hmax e he
    · simp only [hlt, decide_False, Bool.false_eq_true, if_false]
      obtain ⟨hmem, hmax⟩ := ih x
      refine ⟨?_, ?_⟩
      · rcases List.mem_cons.mp hmem with h | h
        · rw [h]; exact List.mem_cons_self _ _
        · exact List.mem_cons_of_mem _ (List.mem_cons_of_mem _ h)
      · intro e he
        rcases List.mem_cons.mp he with rfl | he
        · exact hmax e (List.mem_cons_self _ _)
        · rcases List.mem_cons.mp he with rfl | he
          · exact le_trans (Nat.le_of_not_lt hlt) (hmax x (List.mem_cons_self _ _))
          · exact hmax e (List.mem_cons_of_mem _ he)

/-- On a non-empty table `get_max_height` returns a key of the table that no
key exceeds. -/
theorem get_max_height_spec (t : checkpoints) (hne : t.m_points ≠ []) :
    ∃ M, get_max_height t = some M ∧ M ∈ stdmap.keys t.m_points ∧
      ∀ k ∈ stdmap.keys t.m_points, k ≤ M := by
  obtain ⟨m⟩ := t
  cases m with
  | nil => exact absurd rfl hne
  | cons x xs =>
    obtain ⟨hmem, hmax⟩ := max_element_fold xs x
    refine ⟨_, rfl, List.mem_map.mpr ⟨_, hmem, rfl⟩, ?_⟩
    intro k hk
    obtain ⟨e, he, rfl⟩ := List.mem_map.mp hk
    exact hmax e he

theorem maps_nonempty {t : checkpoints} {h : Nat} {x : hash} (hm : t.maps h x) :
    t.m_points ≠ [] := by
  intro he
  unfold checkpoints.maps at hm
  rw [he] at hm
  simp [stdmap.find] at hm

/-- On a non-empty table the file step does not meet the undefined
`get_max_height()`. -/
theorem load_checkpoints_from_json_returns (E : collaborators) (t : checkpoints)
    (p : String) (hne : t.m_points ≠ []) :
    ∃ r, load_checkpoints_from_json E t p = some r := by
  obtain ⟨M, hM, _, _⟩ := get_max_height_spec t hne
  unfold load_checkpoints_from_json
  split
  · exact ⟨_, rfl⟩
  · rw [hM]
    cases E.load_t_from_json_file p with
    | none => exact ⟨_, rfl⟩
    | some hashes => exact ⟨_, rfl⟩

theorem load_new_checkpoints_returns (E : collaborators) (t : checkpoints)
    (p : String) (n : network_type) (dns : Bool) (hne : t.m_points ≠ []) :
    ∃ r, load_new_checkpoints E t p n dns = some r := by
  obtain ⟨r, hr⟩ := load_checkpoints_from_json_returns E t p hne
  unfold load_new_checkpoints
  rw [hr]
  obtain ⟨b, t1⟩ := r
  cases dns with
  | true => exact ⟨_, rfl⟩
  | false => exact ⟨_, rfl⟩

theorem load_checkpoints_from_json_keeps (E : collaborators) (t : checkpoints)
    (p : String) (h : Nat) (x : hash) (hm : t.maps h x) :
    ∃ r, load_checkpoints_from_json E t p = some r ∧ r.2.maps h x := by
  obtain ⟨r, hr⟩ := load_checkpoints_from_json_returns E t p (maps_nonempty hm)
  exact ⟨r, hr, load_checkpoints_from_json_preserves E _ (maps_preserved E h x) t p hm r hr⟩

theorem load_new_checkpoints_keeps (E : collaborators) (t : checkpoints)
    (p : String) (n : network_type) (dns : Bool) (h : Nat) (x : hash)
    (hm : t.maps h x) :
    ∃ r, load_new_checkpoints E t p n dns = some r ∧ r.2.maps h x := by
  obtain ⟨r, hr⟩ := load_new_checkpoints_returns E t p n dns (maps_nonempty hm)
  exact ⟨r, hr, load_new_checkpoints_preserves E _ (maps_preserved E h x) t p n dns hm r hr⟩

end cryptonote

/-! ## Lemmas about key order -/

namespace stdmap

theorem ordered_cons {e : Nat × crypto.hash} {r : entries} (h : ordered (e :: r)) :
    (∀ e1 ∈ r, e.1 < e1.1) ∧ ordered r := by
  unfold ordered keys at h
  rw [List.map_cons, List.pairwise_cons] at h
  refine ⟨?_, h.2⟩
  intro e1 he1
  exact h.1 e1.1 (List.mem_map.mpr ⟨e1, he1, rfl⟩)

theorem upper_bound_zero_of_all (m : entries) (c : Nat) (h : ∀ e ∈ m, c < e.1) :
    upper_bound m c = 0 := by
  cases m with
  | nil => rfl
  | cons e r => simp [upper_bound, h e (List.mem_cons_self _ _)]

theorem upper_bound_zero (m : entries) (c : Nat) (ho : ordered m)
    (h0 : upper_bound m c = 0) : ∀ e ∈ m, c < e.1 := by
  cases m with
  | nil => intro e he; cases he
  | cons a r =>
    have hlt : c < a.1 := by
      by_contra hn
      simp [upper_bound, hn] at h0
    intro e he
    rcases List.mem_cons.mp he with rfl | he
    · exact hlt
    · exact lt_trans hlt ((ordered_cons ho).1 e he)

theorem upper_bound_pred (m : entries) (c : Nat) (ho : ordered m) :
    upper_bound m c ≠ 0 →
      ∃ e, m[upper_bound m c - 1]? = some e ∧ e ∈ m ∧ e.1 ≤ c ∧
        ∀ e1 ∈ m, e1.1 ≤ c → e1.1 ≤ e.1 := by
  induction m with
  | nil => intro h; exact absurd rfl h
  | cons a r ih =>
    intro _
    obtain ⟨hlt, hor⟩ := ordered_cons ho
    by_cases hca : c < a.1
    · simp [upper_bound, hca] at *
    · have hac : a.1 ≤ c := Nat.le_of_not_lt hca
      have hub : upper_bound (a :: r) c = upper_bound r c + 1 := by
        simp [upper_bound, hca]
      rw [hub, Nat.add_sub_cancel]
      by_cases hz : upper_bound r c = 0
      · rw [hz]
        refine ⟨a, by simp, List.mem_cons_self _ _, hac, ?_⟩
        intro e1 he1 hle
        rcases List.mem_cons.mp he1 with rfl | he1
        · exact le_refl _
        · exact absurd hle (Nat.not_le_of_lt (upper_bound_zero r c hor hz e1 he1))
      · obtain ⟨e, hget, hmem, hle, hmax⟩ := ih hor hz
        obtain ⟨n, hn⟩ := Nat.exists_eq_succ_of_ne_zero hz
        refine ⟨e, ?_, List.mem_cons_of_mem _ hmem, hle, ?_⟩
        · rw [hn] at hget ⊢
          simpa using hget
        · intro e1 he1 hle1
          rcases List.mem_cons.mp he1 with rfl | he1
          · exact Nat.le_of_lt (hlt e hmem)
          · exact hmax e1 he1 hle1

theorem getLast_greatest (m : entries) (ho : ordered m) :
    ∀ e, m.getLast? = some e → e ∈ m ∧ ∀ e1 ∈ m, e1.1 ≤ e.1 := by
  induction m with
  | nil => intro e h; cases h
  | cons a r ih =>
    intro e h
    obtain ⟨hlt, hor⟩ := ordered_cons ho
    cases r with
    | nil =>
      simp at h
      subst h
      simp
    | cons b r1 =>
      rw [List.getLast?_cons_cons] at h
      obtain ⟨hmem, hmax⟩ := ih hor e h
      refine ⟨List.mem_cons_of_mem _ hmem, ?_⟩
      intro e1 he1
      rcases List.mem_cons.mp he1 with rfl | he1
      · exact Nat.le_of_lt (hlt e hmem)
      · exact hmax e1 he1

end stdmap

/-! ## The ordering invariant is kept -/

namespace stdmap

theorem mem_assign {m : entries} {k : Nat} {v : crypto.hash} {e : Nat × crypto.hash}
    (h : e ∈ assign m k v) : e = (k, v) ∨ e ∈ m := by
  induction m with
  | nil =>
    simp [assign] at h
    exact Or.inl h
  | cons a r ih =>
    unfold assign at h
    by_cases h1 : k < a.1
    · simp only [h1, if_true] at h
      rcases List.mem_cons.mp h with h | h
      · exact Or.inl h
      · exact Or.inr h
    · by_cases h2 : k = a.1
      · rw [if_neg h1, if_pos h2] at h
        rcases List.mem_cons.mp h with h | h
        · exact Or.inl h
        · exact Or.inr (List.mem_cons_of_mem _ h)
      · simp only [h1, h2, if_false] at h
        rcases List.mem_cons.mp h with h | h
        · exact Or.inr (by rw [h]; exact List.mem_cons_self _ _)
        · rcases ih h with h | h
          · exact Or.inl h
          · exact Or.inr (List.mem_cons_of_mem _ h)

theorem ordered_of_cons {e : Nat × crypto.hash} {r : entries}
    (h1 : ∀ e1 ∈ r, e.1 < e1.1) (h2 : ordered r) : ordered (e :: r) := by
  unfold ordered keys
  rw [List.map_cons, List.pairwise_cons]
  refine ⟨?_, h2⟩
  intro k hk
  obtain ⟨e1, he1, rfl⟩ := List.mem_map.mp hk
  exact h1 e1 he1

/-- The assignment `m[k] = v` keeps the keys strictly increasing. -/
theorem assign_ordered (m : entries) (k : Nat) (v : crypto.hash) (ho : ordered m) :
    ordered (assign m k v) := by
  induction m with
  | nil => simp [assign, ordered, keys]
  | cons a r ih =>
    obtain ⟨hlt, hor⟩ := ordered_cons ho
    unfold assign
    by_cases h1 : k < a.1
    · simp only [h1, if_true]
      apply ordered_of_cons _ ho
      intro e1 he1
      rcases List.mem_cons.mp he1 with rfl | he1
      · exact h1
      · exact lt_trans h1 (hlt e1 he1)
    · by_cases h2 : k = a.1
      · rw [if_neg h1, if_pos h2]
        apply ordered_of_cons _ hor
        intro e1 he1
        show k < e1.1
        rw [h2]
        exact hlt e1 he1
      · simp only [h1, h2, if_false]
        apply ordered_of_cons _ (ih hor)
        intro e1 he1
        rcases mem_assign he1 with rfl | he1
        · show a.1 < k
          omega
        · exact hlt e1 he1

end stdmap

namespace cryptonote

/-- The table the constructor makes is well formed. -/
theorem new_WF : checkpoints.new.WF := by
  simp [checkpoints.new, checkpoints.WF, stdmap.ordered, stdmap.keys]

/-- The call `add_checkpoint` hands back a well-formed table when given one; with
`add_checkpoint_lines_preserves` and its siblings so does every loader. -/
theorem WF_preserved (E : collaborators) : preserved E checkpoints.WF := by
  intro t k s hw
  unfold add_checkpoint
  split
  · exact hw
  · split
    · split
      · exact stdmap.assign_ordered _ _ _ hw
      · exact hw
    · exact stdmap.assign_ordered _ _ _ hw

end cryptonote

/-! ## The claims -/

namespace cryptonote

open crypto

/-- C1 (conflict integrity): for every table, height `h` and hex strings that
decode to distinct hashes `x` and `y`, once `add_checkpoint(h, x)` has succeeded
a call `add_checkpoint(h, y)` returns false and hands back the very table it
was given, which still maps `h` to `x`. -/
theorem add_checkpoint_conflict_integrity (E : collaborators) (t : checkpoints)
    (h : Nat) (sx sy : String) (x y : hash)
    (hx : E.hex_to_pod sx = some x) (hy : E.hex_to_pod sy = some y) (hxy : x ≠ y)
    (hok : (add_checkpoint E t h sx).1 = true) :
    (add_checkpoint E (add_checkpoint E t h sx).2 h sy).1 = false ∧
      (add_checkpoint E (add_checkpoint E t h sx).2 h sy).2 = (add_checkpoint E t h sx).2 ∧
      (add_checkpoint E (add_checkpoint E t h sx).2 h sy).2.maps h x := by
  have hm := (add_checkpoint_success_maps E t h sx x hx hok).1
  rw [add_checkpoint_clash E (add_checkpoint E t h sx).2 h sy x y hy hm hxy]
  exact ⟨rfl, rfl, hm⟩

/-- Witness of C1: on the empty table, height 5, the first two default hash
strings. -/
theorem add_checkpoint_conflict_integrity_witness :
    (sample.bare.hex_to_pod sample.hex1 = some sample.hash1 ∧
      sample.bare.hex_to_pod sample.hex10 = some sample.hash10 ∧
      sample.hash1 ≠ sample.hash10 ∧
      (add_checkpoint sample.bare checkpoints.new 5 sample.hex1).1 = true) ∧
    (add_checkpoint sample.bare
        (add_checkpoint sample.bare checkpoints.new 5 sample.hex1).2 5 sample.hex10).1 = false ∧
    (add_checkpoint sample.bare
        (add_checkpoint sample.bare checkpoints.new 5 sample.hex1).2 5 sample.hex10).2
      = (add_checkpoint sample.bare checkpoints.new 5 sample.hex1).2 ∧
    (add_checkpoint sample.bare
        (add_checkpoint sample.bare checkpoints.new 5 sample.hex1).2 5 sample.hex10).2.maps
      5 sample.hash1 :=
  ⟨⟨by decide, by decide, by decide, by decide⟩,
    add_checkpoint_conflict_integrity sample.bare checkpoints.new 5 sample.hex1 sample.hex10
      sample.hash1 sample.hash10 (by decide) (by decide) (by decide) (by decide)⟩

/-- C2 (entries are immutable): if the table maps `h` to `x`, then after any
call of `add_checkpoint`, `init_default_checkpoints`,
`load_checkpoints_from_json`, `load_checkpoints_from_dns` or
`load_new_checkpoints`, with any arguments and any behaviour of the file and
DNS collaborators, and whatever the call returns, the table still maps `h` to
`x`; the two file-reading calls do return on such a table. -/
theorem mutators_keep_entries (E : collaborators) (t : checkpoints) (h : Nat)
    (x : hash) (hm : t.maps h x) :
    (∀ (k : Nat) (s : String), (add_checkpoint E t k s).2.maps h x) ∧
    (∀ n : network_type, (init_default_checkpoints E t n).2.maps h x) ∧
    (∀ p : String, ∃ r, load_checkpoints_from_json E t p = some r ∧ r.2.maps h x) ∧
    (∀ n : network_type, (load_checkpoints_from_dns E t n).2.maps h x) ∧
    (∀ (p : String) (n : network_type) (dns : Bool),
      ∃ r, load_new_checkpoints E t p n dns = some r ∧ r.2.maps h x) :=
  ⟨fun k s => add_checkpoint_keeps E t k s h x hm,
    fun n => init_default_checkpoints_preserves E _ (maps_preserved E h x) t n hm,
    fun p => load_checkpoints_from_json_keeps E t p h x hm,
    fun n => load_checkpoints_from_dns_preserves E _ (maps_preserved E h x) t n hm,
    fun p n dns => load_new_checkpoints_keeps E t p n dns h x hm⟩

/-- Witness of C2: the table `1000 ↦ hash1`, a file with entries at 500 and
2000, and a DNS answer whose first record contradicts the entry at 1000. -/
theorem mutators_keep_entries_witness :
    sample.table_1000.maps 1000 sample.hash1 ∧
    (add_checkpoint sample.busy sample.table_1000 1000 sample.hex10).2.maps 1000 sample.hash1 ∧
    (init_default_checkpoints sample.busy sample.table_1000
      network_type.MAINNET).2.maps 1000 sample.hash1 ∧
    (∃ r, load_checkpoints_from_json sample.busy sample.table_1000 "checkpoints.json" = some r ∧
      r.2.maps 1000 sample.hash1) ∧
    (load_checkpoints_from_dns sample.busy sample.table_1000
      network_type.MAINNET).2.maps 1000 sample.hash1 ∧
    (∃ r, load_new_checkpoints sample.busy sample.table_1000 "checkpoints.json"
        network_type.MAINNET true = some r ∧ r.2.maps 1000 sample.hash1) :=
  ⟨by decide,
    (mutators_keep_entries sample.busy sample.table_1000 1000 sample.hash1 (by decide)).1
      1000 sample.hex10,
    (mutators_keep_entries sample.busy sample.table_1000 1000 sample.hash1 (by decide)).2.1
      network_type.MAINNET,
    (mutators_keep_entries sample.busy sample.table_1000 1000 sample.hash1 (by decide)).2.2.1
      "checkpoints.json",
    (mutators_keep_entries sample.busy sample.table_1000 1000 sample.hash1 (by decide)).2.2.2.1
      network_type.MAINNET,
    (mutators_keep_entries sample.busy sample.table_1000 1000 sample.hash1 (by decide)).2.2.2.2
      "checkpoints.json" network_type.MAINNET true⟩

/-- C3 (fork rule): on every table and for every tip height `c` and fork height
`f`, `is_alternative_block_allowed(c, f)` is false when `f = 0`; otherwise it
is true when no checkpoint height is `≤ c`; otherwise it is `f > m` for the
greatest checkpoint height `m` that is `≤ c`.  With checkpoints at 100 and 200
and `c = 150`: `f = 50`, `f = 100`, `f = 0` give false and `f = 101` gives
true. -/
theorem is_alternative_block_allowed_rule (t : checkpoints) (hw : t.WF) (c f : Nat) :
    (f = 0 → is_alternative_block_allowed t c f = false) ∧
    (f ≠ 0 → (∀ k ∈ stdmap.keys t.m_points, ¬ k ≤ c) →
      is_alternative_block_allowed t c f = true) ∧
    (f ≠ 0 → ∀ m ∈ stdmap.keys t.m_points, m ≤ c →
      (∀ k ∈ stdmap.keys t.m_points, k ≤ c → k ≤ m) →
      is_alternative_block_allowed t c f = decide (f > m)) ∧
    (∀ a b : hash,
      is_alternative_block_allowed ⟨[(100, a), (200, b)]⟩ 150 50 = false ∧
      is_alternative_block_allowed ⟨[(100, a), (200, b)]⟩ 150 100 = false ∧
      is_alternative_block_allowed ⟨[(100, a), (200, b)]⟩ 150 0 = false ∧
      is_alternative_block_allowed ⟨[(100, a), (200, b)]⟩ 150 101 = true) := by
  refine ⟨?_, ?_, ?_, ?_⟩
  · intro hf
    simp [is_alternative_block_allowed, hf]
  · intro hf hnone
    have hz : stdmap.upper_bound t.m_points c = 0 := by
      apply stdmap.upper_bound_zero_of_all
      intro e he
      exact Nat.lt_of_not_le (hnone e.1 (List.mem_map.mpr ⟨e, he, rfl⟩))
    have hf0 : ¬ 0 = f := fun e => hf e.symm
    simp [is_alternative_block_allowed, hf0, hz]
  · intro hf m hm hmc hgreatest
    have hf0 : ¬ 0 = f := fun e => hf e.symm
    obtain ⟨em, hem, hemk⟩ := List.mem_map.mp hm
    have hnz : stdmap.upper_bound t.m_points c ≠ 0 := by
      intro hz
      have := stdmap.upper_bound_zero t.m_points c hw hz em hem
      omega
    obtain ⟨e, hget, hmem, hle, hmax⟩ := stdmap.upper_bound_pred t.m_points c hw hnz
    have h1 : m ≤ e.1 := by
      have := hmax em hem (by omega)
      omega
    have h2 : e.1 ≤ m := hgreatest e.1 (List.mem_map.mpr ⟨e, hmem, rfl⟩) hle
    have hem2 : e.1 = m := le_antisymm h2 h1
    simp [is_alternative_block_allowed, hf0, hnz, hget, hem2]
  · intro a b
    simp [is_alternative_block_allowed, stdmap.upper_bound]

/-- Witness of C3: the table with checkpoints at 100 and 200, tip 150 and
fork 101, where the greatest checkpoint height at or below the tip is 100. -/
theorem is_alternative_block_allowed_rule_witness :
    sample.table_100_200.WF ∧ 101 ≠ 0 ∧ 100 ∈ stdmap.keys sample.table_100_200.m_points ∧
      100 ≤ 150 ∧ (∀ k ∈ stdmap.keys sample.table_100_200.m_points, k ≤ 150 → k ≤ 100) ∧
      is_alternative_block_allowed sample.table_100_200 150 101 = decide (101 > 100) :=
  ⟨by decide, by decide, by decide, by decide, by decide,
    (is_alternative_block_allowed_rule sample.table_100_200 (by decide) 150 101).2.2.1
      (by decide) 100 (by decide) (by decide) (by decide)⟩

/-- Counterexample to C4: with checkpoints at 100 and 200,
`is_alternative_block_allowed(150, 150)` is not false. -/
theorem fork_150_150_counterexample :
    ¬ (is_alternative_block_allowed sample.table_100_200 150 150 = false) := by
  decide

/-- C4 as amended: on a table whose checkpoints are exactly at heights 100 and
200, whatever their hashes, `is_alternative_block_allowed(150, 150)` is true:
the last checkpoint at or below the tip 150 is at 100, and 100 < 150. -/
theorem fork_150_150_allowed (a b : hash) :
    is_alternative_block_allowed ⟨[(100, a), (200, b)]⟩ 150 150 = true := by
  simp [is_alternative_block_allowed, stdmap.upper_bound]

/-- C5 (check_block): `check_block` is a const member function, so the table is
only read.  Whatever the reference parameter held before the call, the call
returns true and sets `is_a_checkpoint` to false when the table has no entry
at `h`; when the table maps `h` to a stored hash, it returns whether the stored
hash equals `x` and sets `is_a_checkpoint` to true. -/
theorem check_block_result (t : checkpoints) (h : Nat) (x : hash) (b : Bool) :
    (t.absent h → check_block t h x b = (true, false)) ∧
    (∀ stored : hash, t.maps h stored →
      check_block t h x b = (decide (stored = x), true)) := by
  constructor
  · intro ha
    unfold checkpoints.absent at ha
    simp [check_block, ha]
  · intro stored hm
    unfold checkpoints.maps at hm
    by_cases hsx : stored = x <;> simp [check_block, hm, hsx]

/-- Witness of C5: on the table `5 ↦ hash1`, height 7 has no entry and height 5
is checked against another hash. -/
theorem check_block_result_witness :
    (sample.table_5.absent 7 ∧ check_block sample.table_5 7 sample.hash10 true = (true, false)) ∧
    (sample.table_5.maps 5 sample.hash1 ∧
      check_block sample.table_5 5 sample.hash10 false
        = (decide (sample.hash1 = sample.hash10), true)) :=
  ⟨⟨by decide, (check_block_result sample.table_5 7 sample.hash10 true).1 (by decide)⟩,
    ⟨by decide,
      (check_block_result sample.table_5 5 sample.hash10 false).2 sample.hash1 (by decide)⟩⟩

/-- Counterexample to C6: on the table `5 ↦ hash1` the string `hex10` decodes
to `hash10`, and it is not the case that two calls of `add_checkpoint(5, hex10)`
in a row both succeed: the first one already fails. -/
theorem add_checkpoint_twice_counterexample :
    sample.bare.hex_to_pod sample.hex10 = some sample.hash10 ∧
    ¬ ((add_checkpoint sample.bare sample.table_5 5 sample.hex10).1 = true ∧
        (add_checkpoint sample.bare
          (add_checkpoint sample.bare sample.table_5 5 sample.hex10).2 5 sample.hex10).1 = true ∧
        (add_checkpoint sample.bare
          (add_checkpoint sample.bare sample.table_5 5 sample.hex10).2 5 sample.hex10).2
          = (add_checkpoint sample.bare sample.table_5 5 sample.hex10).2) := by
  decide

/-- C6 as amended (idempotence): for every table, height `h` and hex string
decoding to `x`, provided the table has no entry at `h` or maps `h` to `x`,
two calls of `add_checkpoint(h, x)` in a row both succeed and the table after
the second call equals the table after the first. -/
theorem add_checkpoint_twice (E : collaborators) (t : checkpoints) (h : Nat)
    (s : String) (x : hash) (hs : E.hex_to_pod s = some x)
    (hfree : t.absent h ∨ t.maps h x) :
    (add_checkpoint E t h s).1 = true ∧
      (add_checkpoint E (add_checkpoint E t h s).2 h s).1 = true ∧
      (add_checkpoint E (add_checkpoint E t h s).2 h s).2 = (add_checkpoint E t h s).2 := by
  have hfirst : add_checkpoint E t h s = (true, ⟨stdmap.assign t.m_points h x⟩) := by
    rcases hfree with ha | hm
    · exact add_checkpoint_fresh E t h s x hs ha
    · exact add_checkpoint_again E t h s x hs hm
  rw [hfirst]
  have hsecond := add_checkpoint_again E ⟨stdmap.assign t.m_points h x⟩ h s x hs
    (stdmap.find_assign_same _ _ _)
  rw [hsecond]
  refine ⟨rfl, rfl, ?_⟩
  show (⟨stdmap.assign (stdmap.assign t.m_points h x) h x⟩ : checkpoints) = _
  rw [stdmap.assign_assign]

/-- Witness of C6 as amended: height 7 on the table `5 ↦ hash1`. -/
theorem add_checkpoint_twice_witness :
    (sample.bare.hex_to_pod sample.hex10 = some sample.hash10 ∧
      (sample.table_5.absent 7 ∨ sample.table_5.maps 7 sample.hash10)) ∧
    (add_checkpoint sample.bare sample.table_5 7 sample.hex10).1 = true ∧
    (add_checkpoint sample.bare
      (add_checkpoint sample.bare sample.table_5 7 sample.hex10).2 7 sample.hex10).1 = true ∧
    (add_checkpoint sample.bare
      (add_checkpoint sample.bare sample.table_5 7 sample.hex10).2 7 sample.hex10).2
      = (add_checkpoint sample.bare sample.table_5 7 sample.hex10).2 :=
  ⟨⟨by decide, by decide⟩,
    add_checkpoint_twice sample.bare sample.table_5 7 sample.hex10 sample.hash10
      (by decide) (by decide)⟩

/-- C7 (insertion and frame): on every table with no entry at `h` (any `h`,
zero included) and for every hex string decoding to `x`, `add_checkpoint`
succeeds, the new table maps `h` to `x`, and every other height has the entry,
or the absence of an entry, that it had before. -/
theorem add_checkpoint_inserts (E : collaborators) (t : checkpoints) (h : Nat)
    (s : String) (x : hash) (hs : E.hex_to_pod s = some x) (ha : t.absent h) :
    (add_checkpoint E t h s).1 = true ∧
      (add_checkpoint E t h s).2.maps h x ∧
      ∀ j : Nat, j ≠ h →
        stdmap.find (add_checkpoint E t h s).2.m_points j = stdmap.find t.m_points j := by
  rw [add_checkpoint_fresh E t h s x hs ha]
  refine ⟨rfl, stdmap.find_assign_same _ _ _, ?_⟩
  intro j hj
  exact stdmap.find_assign_other _ _ _ _ hj

/-- Witness of C7: height 0 on the table `5 ↦ hash1`; the entry at 5 stays. -/
theorem add_checkpoint_inserts_witness :
    (sample.bare.hex_to_pod sample.hex10 = some sample.hash10 ∧ sample.table_5.absent 0) ∧
    (add_checkpoint sample.bare sample.table_5 0 sample.hex10).1 = true ∧
    (add_checkpoint sample.bare sample.table_5 0 sample.hex10).2.maps 0 sample.hash10 ∧
    stdmap.find (add_checkpoint sample.bare sample.table_5 0 sample.hex10).2.m_points 5
      = stdmap.find sample.table_5.m_points 5 :=
  ⟨⟨by decide, by decide⟩,
    (add_checkpoint_inserts sample.bare sample.table_5 0 sample.hex10 sample.hash10
      (by decide) (by decide)).1,
    (add_checkpoint_inserts sample.bare sample.table_5 0 sample.hex10 sample.hash10
      (by decide) (by decide)).2.1,
    (add_checkpoint_inserts sample.bare sample.table_5 0 sample.hex10 sample.hash10
      (by decide) (by decide)).2.2 5 (by decide)⟩

/-- C8 (parse failure): for every table, height and string that the hex codec
does not decode, `add_checkpoint` returns false and hands back the table it
was given, whether or not the height has an entry. -/
theorem add_checkpoint_parse_failure (E : collaborators) (t : checkpoints) (h : Nat)
    (s : String) (hs : E.hex_to_pod s = none) :
    (add_checkpoint E t h s).1 = false ∧ (add_checkpoint E t h s).2 = t := by
  rw [add_checkpoint_undecoded E t h s hs]
  exact ⟨rfl, rfl⟩

/-- Witness of C8: the string `notahex` at the height 5 that the table
`5 ↦ hash1` already holds. -/
theorem add_checkpoint_parse_failure_witness :
    sample.bare.hex_to_pod sample.nohex = none ∧
    (add_checkpoint sample.bare sample.table_5 5 sample.nohex).1 = false ∧
    (add_checkpoint sample.bare sample.table_5 5 sample.nohex).2 = sample.table_5 :=
  ⟨by decide, add_checkpoint_parse_failure sample.bare sample.table_5 5 sample.nohex (by decide)⟩

/-- C9 (checkpoint zone): on every table, `is_in_checkpoint_zone(h)` is true
exactly when the table is non-empty and `h` is at most the greatest height
stored; it is false on the empty table for every `h`; and on a non-empty table
`get_max_height()` returns a height `M` such that the zone test is true
exactly for `h ≤ M`. -/
theorem is_in_checkpoint_zone_iff (t : checkpoints) (hw : t.WF) (h : Nat) :
    (is_in_checkpoint_zone t h = true ↔
      t.m_points ≠ [] ∧
        ∃ M ∈ stdmap.keys t.m_points, (∀ k ∈ stdmap.keys t.m_points, k ≤ M) ∧ h ≤ M) ∧
    is_in_checkpoint_zone checkpoints.new h = false ∧
    (t.m_points ≠ [] →
      ∃ M, get_max_height t = some M ∧ (is_in_checkpoint_zone t h = true ↔ h ≤ M)) := by
  by_cases hne : t.m_points = []
  · refine ⟨?_, rfl, fun hn => absurd hne hn⟩
    simp [is_in_checkpoint_zone, stdmap.empty, hne]
  · obtain ⟨e, he⟩ : ∃ e, t.m_points.getLast? = some e := by
      cases hl : t.m_points.getLast? with
      | none => exact absurd (List.getLast?_eq_none_iff.mp hl) hne
      | some e => exact ⟨e, rfl⟩
    obtain ⟨hmem, hmax⟩ := stdmap.getLast_greatest t.m_points hw e he
    have hzone : is_in_checkpoint_zone t h = decide (h ≤ e.1) := by
      simp [is_in_checkpoint_zone, stdmap.empty, hne, he]
    have hekey : e.1 ∈ stdmap.keys t.m_points := List.mem_map.mpr ⟨e, hmem, rfl⟩
    have hekeys : ∀ k ∈ stdmap.keys t.m_points, k ≤ e.1 := by
      intro k hk
      obtain ⟨e1, he1, rfl⟩ := List.mem_map.mp hk
      exact hmax e1 he1
    refine ⟨?_, rfl, ?_⟩
    · rw [hzone, decide_eq_true_iff]
      constructor
      · intro hle
        exact ⟨hne, e.1, hekey, hekeys, hle⟩
      · rintro ⟨_, M, hM, _, hle⟩
        exact le_trans hle (hekeys M hM)
    · intro _
      obtain ⟨M, hget, hMkey, hMmax⟩ := get_max_height_spec t hne
      have hMe : M = e.1 := le_antisymm (hekeys M hMkey) (hMmax e.1 hekey)
      refine ⟨M, hget, ?_⟩
      rw [hzone, decide_eq_true_iff, hMe]

/-- Witness of C9: the table with checkpoints at 100 and 200 and height 150. -/
theorem is_in_checkpoint_zone_iff_witness :
    (sample.table_100_200.WF ∧ sample.table_100_200.m_points ≠ []) ∧
    ∃ M, get_max_height sample.table_100_200 = some M ∧
      (is_in_checkpoint_zone sample.table_100_200 150 = true ↔ 150 ≤ M) :=
  ⟨⟨by decide, by decide⟩,
    (is_in_checkpoint_zone_iff sample.table_100_200 (by decide) 150).2.2 (by decide)⟩

/-- C10 (greatest height): `get_max_height` is a const member function, so the
table is only read; on every non-empty table it returns a height that is a key
of the table and that no key of the table exceeds. -/
theorem get_max_height_greatest (t : checkpoints) (hne : t.m_points ≠ []) :
    ∃ M, get_max_height t = some M ∧ M ∈ stdmap.keys t.m_points ∧
      ∀ k ∈ stdmap.keys t.m_points, k ≤ M :=
  get_max_height_spec t hne

/-- Witness of C10: the table with checkpoints at 100 and 200. -/
theorem get_max_height_greatest_witness :
    sample.table_100_200.m_points ≠ [] ∧
    ∃ M, get_max_height sample.table_100_200 = some M ∧
      M ∈ stdmap.keys sample.table_100_200.m_points ∧
      ∀ k ∈ stdmap.keys sample.table_100_200.m_points, k ≤ M :=
  ⟨by decide, get_max_height_greatest sample.table_100_200 (by decide)⟩

end cryptonote

/-! ## Lemmas about `check_for_conflicts` -/

namespace stdmap

/-- In a key-ordered list every entry is the one `find` returns for its key. -/
theorem find_of_mem (m : entries) (ho : ordered m) :
    ∀ e ∈ m, find m e.1 = some e := by
  induction m with
  | nil => intro e he; cases he
  | cons a r ih =>
    intro e he
    obtain ⟨hlt, hor⟩ := ordered_cons ho
    rcases List.mem_cons.mp he with rfl | he
    · simp [find]
    · have hne : ¬ a.1 = e.1 := Nat.ne_of_lt (hlt e he)
      have hstep : find (a :: r) e.1 = find r e.1 := by
        simp [find, List.find?_cons, hne]
      rw [hstep]
      exact ih hor e he

end stdmap

namespace cryptonote

open crypto

theorem maps_mem {t : checkpoints} {h : Nat} {x : hash} (hm : t.maps h x) :
    (h, x) ∈ t.m_points :=
  stdmap.find_mem hm

theorem maps_of_mem {t : checkpoints} (hw : t.WF) {e : Nat × hash}
    (he : e ∈ t.m_points) : t.maps e.1 e.2 :=
  stdmap.find_of_mem t.m_points hw e he

/-- The loop of `check_for_conflicts` returns false exactly when one of the
entries it visits has a height that `self` holds with another hash. -/
theorem check_for_conflicts_loop_false (self : checkpoints) (ps : stdmap.entries) :
    check_for_conflicts_loop self ps = false ↔
      ∃ pt ∈ ps, ∃ x, self.maps pt.1 x ∧ x ≠ pt.2 := by
  induction ps with
  | nil => simp [check_for_conflicts_loop]
  | cons pt more ih =>
    unfold check_for_conflicts_loop
    rcases find_cases self.m_points pt.1 with ha | ⟨v, hv⟩
    · have hc : stdmap.count self.m_points pt.1 = 0 := (count_eq_zero_iff _ _).mpr ha
      simp only [hc, ne_eq, not_true_eq_false, if_false]
      rw [ih]
      constructor
      · rintro ⟨q, hq, x, hx, hne⟩
        exact ⟨q, List.mem_cons_of_mem _ hq, x, hx, hne⟩
      · rintro ⟨q, hq, x, hx, hne⟩
        rcases List.mem_cons.mp hq with rfl | hq
        · unfold checkpoints.maps at hx
          rw [ha] at hx
          cases hx
        · exact ⟨q, hq, x, hx, hne⟩
    · have hc : stdmap.count self.m_points pt.1 ≠ 0 := by
        intro h0
        rw [(count_eq_zero_iff _ _).mp h0] at hv
        cases hv
      have hg : stdmap.get self.m_points pt.1 = v := get_of_find hv
      simp only [hc, ne_eq, not_false_eq_true, if_true, hg]
      by_cases heq : pt.2 = v
      · simp only [heq, if_true]
        rw [ih]
        constructor
        · rintro ⟨q, hq, x, hx, hne⟩
          exact ⟨q, List.mem_cons_of_mem _ hq, x, hx, hne⟩
        · rintro ⟨q, hq, x, hx, hne⟩
          rcases List.mem_cons.mp hq with rfl | hq
          · unfold checkpoints.maps at hx
            rw [hv] at hx
            cases hx
            exact absurd heq.symm hne
          · exact ⟨q, hq, x, hx, hne⟩
      · simp only [heq, if_false, true_iff]
        exact ⟨pt, List.mem_cons_self _ _, v, hv, fun e => heq e.symm⟩

end cryptonote

/-! ## The claims about the empty table and about `check_for_conflicts` -/

namespace cryptonote

open crypto

/-- C11 (empty table): the source has no Empty outcome.  On the table without
entries `get_max_height()` has no defined result at all: `max_element` returns
`end()` and the function dereferences it, which the embedding renders as
`none`.  The table is empty after `init_default_checkpoints` on the test
network, and `load_checkpoints_from_json` on an existing file then runs into
this call, whereas the sibling `is_in_checkpoint_zone` tests for emptiness
first and answers false. -/
theorem get_max_height_empty_undefined :
    get_max_height checkpoints.new = none ∧
    init_default_checkpoints sample.bare checkpoints.new network_type.TESTNET
      = (true, checkpoints.new) ∧
    load_checkpoints_from_json (sample.file_world []) checkpoints.new "checkpoints.json"
      = none ∧
    is_in_checkpoint_zone checkpoints.new 0 = false := by
  decide

/-- C12 (conflict check): for every table `self` and every (key-ordered) table
`other`, `check_for_conflicts(other)` returns false exactly when some height is
present in both tables with different hashes, and true otherwise; it returns
true when either table is empty. -/
theorem check_for_conflicts_iff (self other : checkpoints) (hw : other.WF) :
    (check_for_conflicts self other = false ↔
      ∃ (h : Nat) (x y : hash), self.maps h x ∧ other.maps h y ∧ x ≠ y) ∧
    (check_for_conflicts self other = true ↔
      ¬ ∃ (h : Nat) (x y : hash), self.maps h x ∧ other.maps h y ∧ x ≠ y) ∧
    check_for_conflicts checkpoints.new other = true ∧
    check_for_conflicts self checkpoints.new = true := by
  have hfalse : check_for_conflicts self other = false ↔
      ∃ (h : Nat) (x y : hash), self.maps h x ∧ other.maps h y ∧ x ≠ y := by
    unfold check_for_conflicts get_points
    rw [check_for_conflicts_loop_false]
    constructor
    · rintro ⟨pt, hpt, x, hx, hne⟩
      exact ⟨pt.1, x, pt.2, hx, maps_of_mem hw hpt, hne⟩
    · rintro ⟨h, x, y, hx, hy, hne⟩
      exact ⟨(h, y), maps_mem hy, x, hx, hne⟩
  refine ⟨hfalse, ?_, ?_, rfl⟩
  · rw [← hfalse]
    cases check_for_conflicts self other <;> simp
  · cases hc : check_for_conflicts checkpoints.new other with
    | true => rfl
    | false =>
      unfold check_for_conflicts get_points at hc
      obtain ⟨pt, _, x, hx, _⟩ := (check_for_conflicts_loop_false _ _).mp hc
      exact absurd rfl (maps_nonempty hx)

/-- Witness of C12: `self` pins height 5 to `hash1`, `other` pins it to
`hash10`, and the check fails. -/
theorem check_for_conflicts_iff_witness :
    (⟨[(5, sample.hash10)]⟩ : checkpoints).WF ∧
    (check_for_conflicts sample.table_5 ⟨[(5, sample.hash10)]⟩ = false ↔
      ∃ (h : Nat) (x y : hash), sample.table_5.maps h x ∧
        (⟨[(5, sample.hash10)]⟩ : checkpoints).maps h y ∧ x ≠ y) ∧
    check_for_conflicts sample.table_5 ⟨[(5, sample.hash10)]⟩ = false :=
  ⟨by decide,
    (check_for_conflicts_iff sample.table_5 ⟨[(5, sample.hash10)]⟩ (by decide)).1,
    by decide⟩

/-- Counterexample to C13: `check_for_conflicts` is a const member function, so
the table after the call is the table before it.  On the empty table, with
`other` holding `5 ↦ hash1`, the call succeeds and yet the table does not hold
that entry. -/
theorem check_for_conflicts_merges_counterexample :
    check_for_conflicts checkpoints.new sample.table_5 = true ∧
    sample.table_5.maps 5 sample.hash1 ∧
    ¬ checkpoints.new.maps 5 sample.hash1 := by
  decide

/-- C13 as amended: `check_for_conflicts(other)` only checks and leaves `self`
as it is; when it succeeds, every height that both tables hold has the same
hash in both. -/
theorem check_for_conflicts_agree (self other : checkpoints)
    (hok : check_for_conflicts self other = true) :
    ∀ (h : Nat) (x y : hash), self.maps h x → other.maps h y → x = y := by
  intro h x y hx hy
  by_contra hne
  have hfalse : check_for_conflicts self other = false := by
    unfold check_for_conflicts get_points
    exact (check_for_conflicts_loop_false _ _).mpr ⟨(h, y), maps_mem hy, x, hx, hne⟩
  rw [hok] at hfalse
  cases hfalse

/-- Witness of C13 as amended: `self` holds `5 ↦ hash1`, `other` holds that
entry and `9 ↦ hash10`; the check succeeds and leaves height 9 out of `self`. -/
theorem check_for_conflicts_agree_witness :
    check_for_conflicts sample.table_5 ⟨[(5, sample.hash1), (9, sample.hash10)]⟩ = true ∧
    sample.table_5.maps 5 sample.hash1 ∧
    (⟨[(5, sample.hash1), (9, sample.hash10)]⟩ : checkpoints).maps 5 sample.hash1 ∧
    sample.hash1 = sample.hash1 :=
  ⟨by decide, by decide, by decide,
    check_for_conflicts_agree sample.table_5 ⟨[(5, sample.hash1), (9, sample.hash10)]⟩
      (by decide) 5 sample.hash1 sample.hash1 (by decide) (by decide)⟩

end cryptonote

/-! ## Lemmas about the loop of `load_checkpoints_from_json` -/

namespace cryptonote

open crypto

theorem add_checkpoint_other (E : collaborators) (t : checkpoints) (k : Nat)
    (s : String) (j : Nat) (hjk : j ≠ k) :
    stdmap.find (add_checkpoint E t k s).2.m_points j = stdmap.find t.m_points j := by
  unfold add_checkpoint
  split
  · rfl
  · split
    · split
      · exact stdmap.find_assign_other _ _ _ _ hjk
      · rfl
    · exact stdmap.find_assign_other _ _ _ _ hjk

/-- One call of `add_checkpoint` seen from a height `h` that is free or holds
`x`: afterwards `h` is still free or holds `x`, provided that a call at `h`
itself carries no other hash than `x`; and a call at `h` with a string that
decodes to `x` succeeds and leaves `h ↦ x`. -/
theorem add_checkpoint_step (E : collaborators) (t : checkpoints) (k : Nat)
    (s : String) (h : Nat) (x : hash) (hfree : t.absent h ∨ t.maps h x)
    (hsame : k = h → ∀ y, E.hex_to_pod s = some y → y = x) :
    ((add_checkpoint E t k s).2.absent h ∨ (add_checkpoint E t k s).2.maps h x) ∧
      (k = h → E.hex_to_pod s = some x →
        (add_checkpoint E t k s).1 = true ∧ (add_checkpoint E t k s).2.maps h x) := by
  have hat : ∀ y, k = h → E.hex_to_pod s = some y →
      (add_checkpoint E t k s).1 = true ∧ (add_checkpoint E t k s).2.maps h x := by
    intro y hk hy
    have hyx : y = x := hsame hk y hy
    subst hk
    subst hyx
    have hadd : add_checkpoint E t k s = (true, ⟨stdmap.assign t.m_points k y⟩) := by
      rcases hfree with ha | hm
      · exact add_checkpoint_fresh E t k s y hy ha
      · exact add_checkpoint_again E t k s y hy hm
    rw [hadd]
    exact ⟨rfl, stdmap.find_assign_same _ _ _⟩
  refine ⟨?_, fun hk hx => hat x hk hx⟩
  by_cases hk : k = h
  · cases hs : E.hex_to_pod s with
    | none =>
      rw [add_checkpoint_undecoded E t k s hs]
      exact hfree
    | some y => exact Or.inr (hat y hk hs).2
  · have hother := add_checkpoint_other E t k s h (fun e => hk e.symm)
    rcases hfree with ha | hm
    · left
      show stdmap.find (add_checkpoint E t k s).2.m_points h = none
      rw [hother]
      exact ha
    · right
      show stdmap.find (add_checkpoint E t k s).2.m_points h = some (h, x)
      rw [hother]
      exact hm

theorem json_loop_skip (E : collaborators) (prev : Nat) (t : checkpoints)
    (l : t_hashline) (ls : List t_hashline) (hle : l.height ≤ prev) :
    json_loop E prev t (l :: ls) = json_loop E prev t ls := by
  rw [json_loop, if_pos hle]

theorem json_loop_add (E : collaborators) (prev : Nat) (t : checkpoints)
    (l : t_hashline) (ls : List t_hashline) (hgt : prev < l.height) :
    json_loop E prev t (l :: ls) =
      ADD_CHECKPOINT E t l.height l.hash (fun self1 => json_loop E prev self1 ls) := by
  rw [json_loop, if_neg (Nat.not_le_of_lt hgt)]

/-- Under either reading of the macro: when the loop returns true, a line
above the threshold that decodes to `x` is in the table, provided that its
height was free or held `x` before and no line of the same height decodes to
another hash. -/
theorem json_loop_present (E : collaborators) (prev : Nat) (l : t_hashline) (x : hash)
    (hgt : prev < l.height) (hx : E.hex_to_pod l.hash = some x) (ls : List t_hashline) :
    ∀ t : checkpoints, l ∈ ls →
      (∀ l1 ∈ ls, l1.height = l.height → ∀ y, E.hex_to_pod l1.hash = some y → y = x) →
      (t.absent l.height ∨ t.maps l.height x) →
      (json_loop E prev t ls).1 = true →
      (json_loop E prev t ls).2.maps l.height x := by
  induction ls with
  | nil => intro t hmem; cases hmem
  | cons a ls ih =>
    intro t hmem hsame hfree hok
    have hsame1 : ∀ l1 ∈ ls, l1.height = l.height →
        ∀ y, E.hex_to_pod l1.hash = some y → y = x :=
      fun l1 hl1 => hsame l1 (List.mem_cons_of_mem _ hl1)
    by_cases hle : a.height ≤ prev
    · rw [json_loop_skip E prev t a ls hle] at hok ⊢
      rcases List.mem_cons.mp hmem with heq | hl
      · rw [← heq] at hle
        omega
      · exact ih t hl hsame1 hfree hok
    · have hagt : prev < a.height := Nat.lt_of_not_le hle
      obtain ⟨hfree1, hhead⟩ := add_checkpoint_step E t a.height a.hash l.height x hfree
        (hsame a (List.mem_cons_self _ _))
      rw [json_loop_add E prev t a ls hagt] at hok ⊢
      rcases ADD_CHECKPOINT_cases E t a.height a.hash
        (fun self1 => json_loop E prev self1 ls) with h | ⟨_, h⟩
      · rw [h] at hok ⊢
        rcases List.mem_cons.mp hmem with heq | hl
        · have hm := (hhead (by rw [heq]) (by rw [← heq]; exact hx)).2
          exact json_loop_preserves E _ (maps_preserved E _ x) prev ls _ hm
        · exact ih _ hl hsame1 hfree1 hok
      · rw [h] at hok
        cases hok

/-- The loop returns true when every line above the threshold decodes, is
either new to the table or already there with its hash, and lines of equal
height carry equal hashes. -/
theorem json_loop_succeeds (E : collaborators) (prev : Nat) (ls : List t_hashline) :
    ∀ t : checkpoints,
      (∀ l ∈ ls, prev < l.height →
        ∃ x, E.hex_to_pod l.hash = some x ∧ (t.absent l.height ∨ t.maps l.height x)) →
      (∀ l ∈ ls, ∀ l1 ∈ ls, prev < l.height → l.height = l1.height →
        E.hex_to_pod l.hash = E.hex_to_pod l1.hash) →
      (json_loop E prev t ls).1 = true := by
  induction ls with
  | nil => intro t _ _; rfl
  | cons a ls ih =>
    intro t hdec hsame
    have hdec1 : ∀ l ∈ ls, prev < l.height →
        ∃ x, E.hex_to_pod l.hash = some x ∧ (t.absent l.height ∨ t.maps l.height x) :=
      fun l hl => hdec l (List.mem_cons_of_mem _ hl)
    have hsame1 : ∀ l ∈ ls, ∀ l1 ∈ ls, prev < l.height → l.height = l1.height →
        E.hex_to_pod l.hash = E.hex_to_pod l1.hash :=
      fun l hl l1 hl1 => hsame l (List.mem_cons_of_mem _ hl) l1 (List.mem_cons_of_mem _ hl1)
    by_cases hle : a.height ≤ prev
    · rw [json_loop_skip E prev t a ls hle]
      exact ih t hdec1 hsame1
    · have hagt : prev < a.height := Nat.lt_of_not_le hle
      obtain ⟨x, hx, hfree⟩ := hdec a (List.mem_cons_self _ _) hagt
      have hadd : add_checkpoint E t a.height a.hash
          = (true, ⟨stdmap.assign t.m_points a.height x⟩) := by
        rcases hfree with ha | hm
        · exact add_checkpoint_fresh E t _ _ x hx ha
        · exact add_checkpoint_again E t _ _ x hx hm
      have hb : (add_checkpoint E t a.height a.hash).1 = true := by rw [hadd]
      rw [json_loop_add E prev t a ls hagt, ADD_CHECKPOINT_true E t _ _ _ hb, hadd]
      apply ih _ _ hsame1
      intro l hl hgt
      obtain ⟨y, hy, hfreel⟩ := hdec1 l hl hgt
      refine ⟨y, hy, ?_⟩
      by_cases heq : l.height = a.height
      · right
        have hxy : E.hex_to_pod a.hash = E.hex_to_pod l.hash :=
          hsame a (List.mem_cons_self _ _) l (List.mem_cons_of_mem _ hl) hagt heq.symm
        have hyx : y = x := by
          rw [hx, hy] at hxy
          exact (Option.some.inj hxy).symm
        show stdmap.find (stdmap.assign t.m_points a.height x) l.height = some (l.height, y)
        rw [heq, hyx]
        exact stdmap.find_assign_same _ _ _
      · rcases hfreel with ha | hm
        · left
          show stdmap.find (stdmap.assign t.m_points a.height x) l.height = none
          rw [stdmap.find_assign_other _ _ _ _ heq]
          exact ha
        · right
          show stdmap.find (stdmap.assign t.m_points a.height x) l.height = some (l.height, y)
          rw [stdmap.find_assign_other _ _ _ _ heq]
          exact hm

/-- When the macro returns false after a failed call, a line above the
threshold whose hash string does not decode ends the loop: the result is false
and the table is the one the lines before it gave. -/
theorem json_loop_stops (E : collaborators)
    (hstrict : E.failed_add = on_failure.return_false) (prev : Nat) (bad : t_hashline)
    (post : List t_hashline) (hgt : prev < bad.height)
    (hbad : E.hex_to_pod bad.hash = none) (pre : List t_hashline) :
    ∀ t : checkpoints,
      json_loop E prev t (pre ++ bad :: post) = (false, (json_loop E prev t pre).2) := by
  induction pre with
  | nil =>
    intro t
    have hb : (add_checkpoint E t bad.height bad.hash).1 = false := by
      rw [add_checkpoint_undecoded E t _ _ hbad]
    rw [List.nil_append, json_loop_add E prev t bad post hgt,
      ADD_CHECKPOINT_false E t _ _ _ hstrict hb, add_checkpoint_undecoded E t _ _ hbad]
    rfl
  | cons a pre ih =>
    intro t
    rw [List.cons_append]
    by_cases hle : a.height ≤ prev
    · rw [json_loop_skip E prev t a _ hle, json_loop_skip E prev t a _ hle]
      exact ih t
    · have hagt : prev < a.height := Nat.lt_of_not_le hle
      rw [json_loop_add E prev t a _ hagt, json_loop_add E prev t a _ hagt]
      cases hb : (add_checkpoint E t a.height a.hash).1 with
      | true =>
        rw [ADD_CHECKPOINT_true E t _ _ _ hb, ADD_CHECKPOINT_true E t _ _ _ hb]
        exact ih _
      | false =>
        rw [ADD_CHECKPOINT_false E t _ _ _ hstrict hb,
          ADD_CHECKPOINT_false E t _ _ _ hstrict hb]

/-- The greatest key of a table is what `get_max_height` returns. -/
theorem get_max_height_eq (t : checkpoints) (M : Nat)
    (hM : M ∈ stdmap.keys t.m_points) (hmax : ∀ k ∈ stdmap.keys t.m_points, k ≤ M) :
    get_max_height t = some M := by
  have hne : t.m_points ≠ [] := by
    intro he
    rw [he] at hM
    cases hM
  obtain ⟨M1, hget, hM1, hmax1⟩ := get_max_height_spec t hne
  have : M1 = M := le_antisymm (hmax M1 hM1) (hmax1 M hM)
  rw [hget, this]

/-- No height above the greatest key has an entry. -/
theorem absent_above (t : checkpoints) (M : Nat)
    (hmax : ∀ k ∈ stdmap.keys t.m_points, k ≤ M) (j : Nat) (hj : M < j) :
    t.absent j := by
  refine stdmap.find_none_iff.mpr ?_
  intro e he heq
  have := hmax e.1 (List.mem_map.mpr ⟨e, he, rfl⟩)
  omega

/-- With an existing file that parses, `load_checkpoints_from_json` on a table
of greatest height `M` is the loop with threshold `M`. -/
theorem load_checkpoints_from_json_eq (E : collaborators) (t : checkpoints)
    (p : String) (M : Nat) (hashes : t_hash_json)
    (hM : M ∈ stdmap.keys t.m_points) (hmax : ∀ k ∈ stdmap.keys t.m_points, k ≤ M)
    (hfile : E.file_exists p = true) (hparse : E.load_t_from_json_file p = some hashes) :
    load_checkpoints_from_json E t p = some (json_loop E M t hashes.hashlines) := by
  unfold load_checkpoints_from_json
  rw [hfile, get_max_height_eq t M hM hmax, hparse]
  rfl

end cryptonote

/-! ## The claims about `load_checkpoints_from_json` -/

namespace cryptonote

open crypto

/-- C20 (threshold taken once): the skip threshold of
`load_checkpoints_from_json` is the greatest height `M` that the table has
before the first file line is processed.  For an existing file that parses,
whose lines above `M` all decode and carry equal hashes at equal heights, the
call returns true and every line with height `> M` is in the table, whatever
the heights of the lines before it.  With the table `1000 ↦ H1` and the file
lines `(2000, H3)`, `(1500, H4)` the table ends as
`1000 ↦ H1, 1500 ↦ H4, 2000 ↦ H3`. -/
theorem load_checkpoints_from_json_threshold (E : collaborators) (p : String)
    (hfile : E.file_exists p = true) :
    (∀ (t : checkpoints) (M : Nat) (hashes : t_hash_json),
      M ∈ stdmap.keys t.m_points → (∀ k ∈ stdmap.keys t.m_points, k ≤ M) →
      E.load_t_from_json_file p = some hashes →
      (∀ l ∈ hashes.hashlines, M < l.height → (E.hex_to_pod l.hash).isSome = true) →
      (∀ l ∈ hashes.hashlines, ∀ l1 ∈ hashes.hashlines, M < l.height →
        l.height = l1.height → E.hex_to_pod l.hash = E.hex_to_pod l1.hash) →
      ∃ t1, load_checkpoints_from_json E t p = some (true, t1) ∧
        ∀ l ∈ hashes.hashlines, M < l.height →
          ∃ x, E.hex_to_pod l.hash = some x ∧ t1.maps l.height x) ∧
    (∀ (s3 s4 : String) (H1 H3 H4 : hash),
      E.load_t_from_json_file p = some ⟨[⟨2000, s3⟩, ⟨1500, s4⟩]⟩ →
      E.hex_to_pod s3 = some H3 → E.hex_to_pod s4 = some H4 →
      load_checkpoints_from_json E ⟨[(1000, H1)]⟩ p
          = some (true, ⟨[(1000, H1), (1500, H4), (2000, H3)]⟩) ∧
        (⟨[(1000, H1), (1500, H4), (2000, H3)]⟩ : checkpoints).maps 1500 H4) := by
  constructor
  · intro t M hashes hM hmax hparse hdec hsame
    have hok : (json_loop E M t hashes.hashlines).1 = true := by
      apply json_loop_succeeds E M _ t _ hsame
      intro l hl hlgt
      obtain ⟨x, hx⟩ := Option.isSome_iff_exists.mp (hdec l hl hlgt)
      exact ⟨x, hx, Or.inl (absent_above t M hmax l.height hlgt)⟩
    refine ⟨(json_loop E M t hashes.hashlines).2, ?_, ?_⟩
    · rw [load_checkpoints_from_json_eq E t p M hashes hM hmax hfile hparse, ← hok]
    · intro l hl hlgt
      obtain ⟨x, hx⟩ := Option.isSome_iff_exists.mp (hdec l hl hlgt)
      refine ⟨x, hx, ?_⟩
      apply json_loop_present E M l x hlgt hx _ t hl _
        (Or.inl (absent_above t M hmax l.height hlgt)) hok
      intro l1 hl1 heq y hy
      have hboth := hsame l hl l1 hl1 hlgt heq.symm
      rw [hx, hy] at hboth
      exact (Option.some.inj hboth).symm
  · intro s3 s4 H1 H3 H4 hparse hs3 hs4
    constructor
    · simp [load_checkpoints_from_json, hfile, hparse, get_max_height, stdmap.max_element,
        json_loop, ADD_CHECKPOINT, add_checkpoint, hs3, hs4, stdmap.count, stdmap.find,
        stdmap.assign]
    · simp [checkpoints.maps, stdmap.find]

/-- Witness of C20: the table `1000 ↦ hash1` and the file with the lines
`(2000, hex100)` and `(1500, hex10)`. -/
theorem load_checkpoints_from_json_threshold_witness :
    ((sample.file_world [⟨2000, sample.hex100⟩, ⟨1500, sample.hex10⟩]).file_exists
        "checkpoints.json" = true ∧
      1000 ∈ stdmap.keys sample.table_1000.m_points ∧
      (∀ k ∈ stdmap.keys sample.table_1000.m_points, k ≤ 1000)) ∧
    (∃ t1, load_checkpoints_from_json
        (sample.file_world [⟨2000, sample.hex100⟩, ⟨1500, sample.hex10⟩])
        sample.table_1000 "checkpoints.json" = some (true, t1) ∧
      ∀ l ∈ [(⟨2000, sample.hex100⟩ : t_hashline), ⟨1500, sample.hex10⟩],
        1000 < l.height →
        ∃ x, sample.hex_to_pod l.hash = some x ∧ t1.maps l.height x) ∧
    load_checkpoints_from_json
        (sample.file_world [⟨2000, sample.hex100⟩, ⟨1500, sample.hex10⟩])
        sample.table_1000 "checkpoints.json"
      = some (true, ⟨[(1000, sample.hash1), (1500, sample.hash10), (2000, sample.hash100)]⟩) :=
  ⟨⟨by decide, by decide, by decide⟩,
    (load_checkpoints_from_json_threshold
      (sample.file_world [⟨2000, sample.hex100⟩, ⟨1500, sample.hex10⟩]) "checkpoints.json"
      (by decide)).1 sample.table_1000 1000 ⟨[⟨2000, sample.hex100⟩, ⟨1500, sample.hex10⟩]⟩
      (by decide) (by decide) (by decide) (by decide) (by decide),
    by decide⟩

end cryptonote

/-! ## Lemmas about the loop of `load_checkpoints_from_dns` -/

namespace cryptonote

open crypto

theorem dns_loop_malformed (E : collaborators) (t : checkpoints) (bad : String)
    (more : List String) (hbad : malformed_record E bad = true) :
    dns_loop E t (bad :: more) = dns_loop E t more := by
  unfold malformed_record at hbad
  rw [dns_loop]
  cases hc : find_colon bad with
  | none => rfl
  | some pos =>
    rw [hc] at hbad
    simp only []
    cases hh : stdstream.extract_uint64 (substr_to bad pos) with
    | none => rfl
    | some height =>
      simp only []
      cases hx : E.hex_to_pod (substr_from bad (pos + 1)) with
      | none => rfl
      | some y => simp [hh, hx] at hbad

theorem dns_loop_parsed (E : collaborators) (t : checkpoints) (r : String)
    (more : List String) (pos h : Nat) (y : hash)
    (hc : find_colon r = some pos)
    (hh : stdstream.extract_uint64 (substr_to r pos) = some h)
    (hx : E.hex_to_pod (substr_from r (pos + 1)) = some y) :
    dns_loop E t (r :: more) =
      ADD_CHECKPOINT E t h (substr_from r (pos + 1)) (fun self1 => dns_loop E self1 more) := by
  rw [dns_loop]
  simp only [hc, hh, hx]

/-- A record is malformed or parses into a height and a hash. -/
theorem record_cases (E : collaborators) (r : String) :
    malformed_record E r = true ∨
      (malformed_record E r = false ∧
        ∃ (pos h : Nat) (y : hash), find_colon r = some pos ∧
          stdstream.extract_uint64 (substr_to r pos) = some h ∧
          E.hex_to_pod (substr_from r (pos + 1)) = some y) := by
  unfold malformed_record
  cases hc : find_colon r with
  | none => exact Or.inl rfl
  | some pos =>
    cases hh : stdstream.extract_uint64 (substr_to r pos) with
    | none => left; simp [hh]
    | some h =>
      cases hx : E.hex_to_pod (substr_from r (pos + 1)) with
      | none => left; simp [hx]
      | some y => right; exact ⟨by simp [hh, hx], pos, h, y, rfl, hh, hx⟩

/-- The loop gives the same result on the list without its malformed records. -/
theorem dns_loop_filter (E : collaborators) (rs : List String) :
    ∀ t : checkpoints,
      dns_loop E t rs = dns_loop E t (rs.filter (fun r => !malformed_record E r)) := by
  induction rs with
  | nil => intro t; rfl
  | cons r more ih =>
    intro t
    rcases record_cases E r with hbad | ⟨hgood, pos, h, y, hc, hh, hx⟩
    · rw [dns_loop_malformed E t r more hbad, List.filter_cons_of_neg (by simp [hbad])]
      exact ih t
    · rw [List.filter_cons_of_pos (by simp [hgood]), dns_loop_parsed E t r more pos h y hc hh hx,
        dns_loop_parsed E t r _ pos h y hc hh hx]
      have hrest : (fun self1 => dns_loop E self1 more)
          = (fun self1 => dns_loop E self1 (more.filter (fun r => !malformed_record E r))) :=
        funext ih
      rw [hrest]

/-- The loop reads its collaborators only through the codec and the reading of
the macro. -/
theorem dns_loop_congr (E1 E2 : collaborators) (h1 : E1.hex_to_pod = E2.hex_to_pod)
    (h2 : E1.failed_add = E2.failed_add) (rs : List String) :
    ∀ t : checkpoints, dns_loop E1 t rs = dns_loop E2 t rs := by
  have hadd : ∀ (t : checkpoints) (k : Nat) (s : String),
      add_checkpoint E1 t k s = add_checkpoint E2 t k s := by
    intro t k s
    unfold add_checkpoint
    rw [h1]
  induction rs with
  | nil => intro t; rfl
  | cons r more ih =>
    intro t
    have hm : malformed_record E1 r = malformed_record E2 r := by
      unfold malformed_record
      rw [h1]
    rcases record_cases E2 r with hbad | ⟨_, pos, h, y, hc, hh, hx⟩
    · rw [dns_loop_malformed E2 t r more hbad, dns_loop_malformed E1 t r more (hm.trans hbad)]
      exact ih t
    · rw [dns_loop_parsed E2 t r more pos h y hc hh hx,
        dns_loop_parsed E1 t r more pos h y hc hh (by rw [h1]; exact hx)]
      unfold ADD_CHECKPOINT
      rw [hadd, funext ih, h2]

theorem load_checkpoints_from_dns_eq (E : collaborators) (t : checkpoints)
    (n : network_type) :
    load_checkpoints_from_dns E t n =
      match E.load_txt_records_from_dns (urls_of n) with
      | none => (true, t)
      | some records => dns_loop E t records := rfl

/-- When the macro returns false after a failed call, a record that parses and
contradicts an entry of the table makes the loop return false. -/
theorem dns_loop_conflict (E : collaborators)
    (hstrict : E.failed_add = on_failure.return_false) (r : String) (h : Nat)
    (x y : hash) (hr : record_parses E r h y) (hxy : x ≠ y) (rs : List String) :
    ∀ t : checkpoints, r ∈ rs → t.maps h x → (dns_loop E t rs).1 = false := by
  induction rs with
  | nil => intro t hmem; cases hmem
  | cons a more ih =>
    intro t hmem hm
    rcases record_cases E a with hbad | ⟨hgood, pos, k, z, hc, hh, hx⟩
    · rw [dns_loop_malformed E t a more hbad]
      rcases List.mem_cons.mp hmem with rfl | hmem
      · obtain ⟨pos, hc, hh, hx⟩ := hr
        unfold malformed_record at hbad
        simp [hc, hh, hx] at hbad
      · exact ih t hmem hm
    · rw [dns_loop_parsed E t a more pos k z hc hh hx]
      cases hb : (add_checkpoint E t k (substr_from a (pos + 1))).1 with
      | false => rw [ADD_CHECKPOINT_false E t _ _ _ hstrict hb]
      | true =>
        rw [ADD_CHECKPOINT_true E t _ _ _ hb]
        have hkeep := add_checkpoint_keeps E t k (substr_from a (pos + 1)) h x hm
        rcases List.mem_cons.mp hmem with rfl | hmem
        · obtain ⟨pos1, hc1, hh1, hx1⟩ := hr
          have hpos : pos1 = pos := Option.some.inj (hc1.symm.trans hc)
          rw [hpos] at hh1 hx1
          have hk : k = h := Option.some.inj (hh.symm.trans hh1)
          rw [hk] at hb
          rw [add_checkpoint_clash E t h _ x y hx1 hm hxy] at hb
          cases hb
        · exact ih _ hmem hkeep

end cryptonote

/-! ## Lemmas about the stream extraction -/

namespace stdstream

theorem isdigit_not_space {c : Char} (h : isdigit c = true) : isspace c = false := by
  simp only [isdigit, Bool.and_eq_true, decide_eq_true_eq] at h
  simp only [isspace, Bool.or_eq_false_iff, Bool.and_eq_false_iff, decide_eq_false_iff_not]
  omega

theorem isdigit_not_sign {c : Char} (h : isdigit c = true) :
    (c.toNat = 43 || c.toNat = 45) = false := by
  simp only [isdigit, Bool.and_eq_true, decide_eq_true_eq] at h
  simp only [Bool.or_eq_false_iff, decide_eq_false_iff_not]
  omega

/-- A non-empty string of decimal digits that spells a number below `2 ^ 64`
is extracted as that number. -/
theorem extract_numeral (s : String) (hne : s.data ≠ [])
    (hall : ∀ c ∈ s.data, isdigit c = true) (hfit : digits_value 0 s.data < 2 ^ 64) :
    extract_uint64 s = some (digits_value 0 s.data) := by
  unfold extract_uint64
  cases hs : s.data with
  | nil => exact absurd hs hne
  | cons c r =>
    rw [hs] at hall hfit
    have hc : isdigit c = true := hall c (List.mem_cons_self _ _)
    have hdrop : List.dropWhile isspace (c :: r) = c :: r := by
      rw [List.dropWhile_cons_of_neg]
      rw [isdigit_not_space hc]
      exact Bool.false_ne_true
    have hsign : after_sign (c :: r) = c :: r := by
      simp only [after_sign, isdigit_not_sign hc, Bool.false_eq_true, if_false]
    have htake : List.takeWhile isdigit (c :: r) = c :: r :=
      List.takeWhile_eq_self_iff.mpr hall
    have hminus : ¬ c.toNat = 45 := by
      simp only [isdigit, Bool.and_eq_true, decide_eq_true_eq] at hc
      omega
    simp only [hdrop, hsign, htake, List.isEmpty_cons, Bool.false_eq_true, if_false,
      Nat.not_le.mpr hfit, List.head?_cons, Option.map_some', Option.some.injEq, hminus]

end stdstream

/-! ## The claims about the DNS step -/

namespace cryptonote

open crypto

/-- Counterexample to C16: the height part `7x` of the record `7x:hex10` is no
number, and `load_checkpoints_from_dns` does not treat the record as absent:
the extraction reads the height 7 and the record is applied, so the table
differs from the one that the answer without the record gives. -/
theorem load_checkpoints_from_dns_numeric_counterexample :
    decimal_numeral "7x" = false ∧
    load_checkpoints_from_dns (sample.dns_world [sample.record_7x]) sample.table_1000
        network_type.MAINNET
      = (true, ⟨[(7, sample.hash10), (1000, sample.hash1)]⟩) ∧
    load_checkpoints_from_dns (sample.dns_world []) sample.table_1000 network_type.MAINNET
      = (true, sample.table_1000) := by
  decide

/-- C16 as amended (DNS resilience): `load_checkpoints_from_dns` treats as
absent a record without a `:` separator, a record from whose height part the
extraction of an unsigned 64-bit number fails, and a record whose hash part
does not decode.  The returned value and table are those of the same DNS
answer with these records removed, and the loop goes on with the records after
such a record.  The extraction fails exactly when, after leading white space
and an optional sign, no decimal digit follows, or the digits spell a number
above `2 ^ 64 - 1`; a decimal numeral that fits is read as its value, and so
is a height part that only starts with one: `7x`, `12abc`, `0x10` give 7, 12,
0.  The answer made of the record `2000:hex10` and of `abc:notahex` applies
exactly the former and returns true. -/
theorem load_checkpoints_from_dns_skips_malformed (E : collaborators) (t : checkpoints) :
    (∀ n : network_type,
      load_checkpoints_from_dns (without_malformed E) t n = load_checkpoints_from_dns E t n) ∧
    (∀ rs : List String,
      dns_loop E t rs = dns_loop E t (rs.filter (fun r => !malformed_record E r))) ∧
    (∀ (bad : String) (more : List String), malformed_record E bad = true →
      dns_loop E t (bad :: more) = dns_loop E t more) ∧
    (∀ r : String, malformed_record E r = true ↔
      (find_colon r = none ∨
        ∃ pos, find_colon r = some pos ∧
          (stdstream.extract_uint64 (substr_to r pos) = none ∨
            E.hex_to_pod (substr_from r (pos + 1)) = none))) ∧
    (∀ s : String, stdstream.extract_uint64 s = none ↔
      ((stdstream.after_sign (s.data.dropWhile stdstream.isspace)).takeWhile
          stdstream.isdigit = [] ∨
        2 ^ 64 ≤ stdstream.digits_value 0
          ((stdstream.after_sign (s.data.dropWhile stdstream.isspace)).takeWhile
            stdstream.isdigit))) ∧
    (∀ s : String, decimal_numeral s = true → stdstream.digits_value 0 s.data < 2 ^ 64 →
      stdstream.extract_uint64 s = some (stdstream.digits_value 0 s.data)) ∧
    (stdstream.extract_uint64 "abc" = none ∧ stdstream.extract_uint64 "" = none ∧
      stdstream.extract_uint64 "18446744073709551616" = none ∧
      stdstream.extract_uint64 "2000" = some 2000 ∧
      stdstream.extract_uint64 "7x" = some 7 ∧ stdstream.extract_uint64 "12abc" = some 12 ∧
      stdstream.extract_uint64 "0x10" = some 0 ∧ stdstream.extract_uint64 " 7" = some 7 ∧
      stdstream.extract_uint64 "+7" = some 7 ∧
      stdstream.extract_uint64 "-1" = some (2 ^ 64 - 1)) ∧
    (malformed_record sample.bare sample.record_bad = true ∧
      malformed_record sample.bare sample.record_2000 = false ∧
      load_checkpoints_from_dns (sample.dns_world [sample.record_2000, sample.record_bad])
          sample.table_1000 network_type.MAINNET
        = (true, ⟨[(1000, sample.hash1), (2000, sample.hash10)]⟩) ∧
      load_checkpoints_from_dns (sample.dns_world [sample.record_2000])
          sample.table_1000 network_type.MAINNET
        = (true, ⟨[(1000, sample.hash1), (2000, sample.hash10)]⟩)) := by
  refine ⟨?_, ?_, ?_, ?_, ?_, ?_, by decide, by decide⟩
  · intro n
    rw [load_checkpoints_from_dns_eq, load_checkpoints_from_dns_eq]
    show (match (E.load_txt_records_from_dns (urls_of n)).map
        (fun records => records.filter (fun r => !malformed_record E r)) with
      | none => (true, t)
      | some records => dns_loop (without_malformed E) t records) = _
    cases E.load_txt_records_from_dns (urls_of n) with
    | none => rfl
    | some records =>
      show dns_loop (without_malformed E) t _ = dns_loop E t records
      rw [dns_loop_congr (without_malformed E) E rfl rfl, ← dns_loop_filter]
  · intro rs
    exact dns_loop_filter E rs t
  · intro bad more hbad
    exact dns_loop_malformed E t bad more hbad
  · intro r
    unfold malformed_record
    cases find_colon r with
    | none => simp
    | some pos => simp [Option.isNone_iff_eq_none]
  · intro s
    unfold stdstream.extract_uint64
    simp only [List.isEmpty_iff]
    by_cases h1 : (stdstream.after_sign (s.data.dropWhile stdstream.isspace)).takeWhile
        stdstream.isdigit = []
    · rw [if_pos h1]
      exact ⟨fun _ => Or.inl h1, fun _ => rfl⟩
    · rw [if_neg h1]
      by_cases h2 : 2 ^ 64 ≤ stdstream.digits_value 0
          ((stdstream.after_sign (s.data.dropWhile stdstream.isspace)).takeWhile
            stdstream.isdigit)
      · rw [if_pos h2]
        exact ⟨fun _ => Or.inr h2, fun _ => rfl⟩
      · rw [if_neg h2]
        constructor
        · intro h
          split at h <;> cases h
        · rintro (h | h)
          · exact absurd h h1
          · exact absurd h h2
  · intro s hnum hfit
    unfold decimal_numeral at hnum
    simp only [Bool.and_eq_true, Bool.not_eq_true', List.isEmpty_eq_false, List.all_eq_true]
      at hnum
    exact stdstream.extract_numeral s hnum.1 hnum.2 hfit

/-- Witness of C16 as amended: the malformed record `abc:notahex` in front of
the record `2000:hex10`, on the table `1000 ↦ hash1`. -/
theorem load_checkpoints_from_dns_skips_malformed_witness :
    malformed_record sample.bare sample.record_bad = true ∧
    dns_loop sample.bare sample.table_1000 [sample.record_bad, sample.record_2000]
      = dns_loop sample.bare sample.table_1000 [sample.record_2000] :=
  ⟨by decide,
    (load_checkpoints_from_dns_skips_malformed sample.bare sample.table_1000).2.2.1
      sample.record_bad [sample.record_2000] (by decide)⟩

end cryptonote

/-! ## Lemmas about `init_default_checkpoints` and about forks -/

namespace cryptonote

open crypto

theorem add_checkpoint_lines_cons (E : collaborators) (t : checkpoints)
    (l : Nat × String) (ls : List (Nat × String)) :
    add_checkpoint_lines E t (l :: ls) =
      ADD_CHECKPOINT E t l.1 l.2 (fun self1 => add_checkpoint_lines E self1 ls) := by
  rw [add_checkpoint_lines]

/-- A sequence of `ADD_CHECKPOINT` statements returns true when every string
decodes, every height is new to the table or already there with that hash, and
statements for one height carry equal hashes. -/
theorem add_checkpoint_lines_succeeds (E : collaborators) (ls : List (Nat × String)) :
    ∀ t : checkpoints,
      (∀ l ∈ ls, ∃ x, E.hex_to_pod l.2 = some x ∧ (t.absent l.1 ∨ t.maps l.1 x)) →
      (∀ l ∈ ls, ∀ l1 ∈ ls, l.1 = l1.1 → E.hex_to_pod l.2 = E.hex_to_pod l1.2) →
      (add_checkpoint_lines E t ls).1 = true := by
  induction ls with
  | nil => intro t _ _; rfl
  | cons a ls ih =>
    intro t hdec hsame
    have hdec1 : ∀ l ∈ ls, ∃ x, E.hex_to_pod l.2 = some x ∧ (t.absent l.1 ∨ t.maps l.1 x) :=
      fun l hl => hdec l (List.mem_cons_of_mem _ hl)
    have hsame1 : ∀ l ∈ ls, ∀ l1 ∈ ls, l.1 = l1.1 → E.hex_to_pod l.2 = E.hex_to_pod l1.2 :=
      fun l hl l1 hl1 => hsame l (List.mem_cons_of_mem _ hl) l1 (List.mem_cons_of_mem _ hl1)
    obtain ⟨x, hx, hfree⟩ := hdec a (List.mem_cons_self _ _)
    have hadd : add_checkpoint E t a.1 a.2 = (true, ⟨stdmap.assign t.m_points a.1 x⟩) := by
      rcases hfree with ha | hm
      · exact add_checkpoint_fresh E t _ _ x hx ha
      · exact add_checkpoint_again E t _ _ x hx hm
    have hb : (add_checkpoint E t a.1 a.2).1 = true := by rw [hadd]
    rw [add_checkpoint_lines_cons, ADD_CHECKPOINT_true E t _ _ _ hb, hadd]
    apply ih _ _ hsame1
    intro l hl
    obtain ⟨y, hy, hfreel⟩ := hdec1 l hl
    refine ⟨y, hy, ?_⟩
    by_cases heq : l.1 = a.1
    · right
      have hxy : E.hex_to_pod a.2 = E.hex_to_pod l.2 :=
        hsame a (List.mem_cons_self _ _) l (List.mem_cons_of_mem _ hl) heq.symm
      have hyx : y = x := by
        rw [hx, hy] at hxy
        exact (Option.some.inj hxy).symm
      show stdmap.find (stdmap.assign t.m_points a.1 x) l.1 = some (l.1, y)
      rw [heq, hyx]
      exact stdmap.find_assign_same _ _ _
    · rcases hfreel with ha | hm
      · left
        show stdmap.find (stdmap.assign t.m_points a.1 x) l.1 = none
        rw [stdmap.find_assign_other _ _ _ _ heq]
        exact ha
      · right
        show stdmap.find (stdmap.assign t.m_points a.1 x) l.1 = some (l.1, y)
        rw [stdmap.find_assign_other _ _ _ _ heq]
        exact hm

/-- Under either reading of the macro: when a sequence of `ADD_CHECKPOINT`
statements returns true, a checkpoint of it whose string decodes to `x` is in
the table, provided that its height was free or held `x` before and no
statement for that height decodes to another hash. -/
theorem add_checkpoint_lines_present (E : collaborators) (l : Nat × String) (x : hash)
    (hx : E.hex_to_pod l.2 = some x) (ls : List (Nat × String)) :
    ∀ t : checkpoints, l ∈ ls →
      (∀ l1 ∈ ls, l1.1 = l.1 → ∀ y, E.hex_to_pod l1.2 = some y → y = x) →
      (t.absent l.1 ∨ t.maps l.1 x) →
      (add_checkpoint_lines E t ls).1 = true →
      (add_checkpoint_lines E t ls).2.maps l.1 x := by
  induction ls with
  | nil => intro t hmem; cases hmem
  | cons a ls ih =>
    intro t hmem hsame hfree hok
    have hsame1 : ∀ l1 ∈ ls, l1.1 = l.1 → ∀ y, E.hex_to_pod l1.2 = some y → y = x :=
      fun l1 hl1 => hsame l1 (List.mem_cons_of_mem _ hl1)
    obtain ⟨hfree1, hhead⟩ := add_checkpoint_step E t a.1 a.2 l.1 x hfree
      (hsame a (List.mem_cons_self _ _))
    rw [add_checkpoint_lines_cons] at hok ⊢
    rcases ADD_CHECKPOINT_cases E t a.1 a.2
      (fun self1 => add_checkpoint_lines E self1 ls) with h | ⟨_, h⟩
    · rw [h] at hok ⊢
      rcases List.mem_cons.mp hmem with heq | hl
      · have hm := (hhead (by rw [heq]) (by rw [← heq]; exact hx)).2
        exact add_checkpoint_lines_preserves E _ (maps_preserved E _ x) ls _ hm
      · exact ih _ hl hsame1 hfree1 hok
    · rw [h] at hok
      cases hok

/-- No two `ADD_CHECKPOINT` statements of `init_default_checkpoints` name the
same height with different strings. -/
theorem default_lines_consistent :
    ∀ l ∈ default_checkpoint_lines, ∀ l1 ∈ default_checkpoint_lines,
      l.1 = l1.1 → l.2 = l1.2 := by
  decide

/-- On a key-ordered table a fork is allowed exactly when the fork height is
not zero and lies above every checkpoint at or below the tip. -/
theorem allowed_iff (t : checkpoints) (hw : t.WF) (c f : Nat) :
    is_alternative_block_allowed t c f = true ↔
      f ≠ 0 ∧ ∀ k ∈ stdmap.keys t.m_points, k ≤ c → k < f := by
  by_cases hf : f = 0
  · simp [is_alternative_block_allowed, hf]
  · have hf0 : ¬ 0 = f := fun e => hf e.symm
    by_cases hz : stdmap.upper_bound t.m_points c = 0
    · have hall := stdmap.upper_bound_zero t.m_points c hw hz
      have hres : is_alternative_block_allowed t c f = true := by
        simp [is_alternative_block_allowed, hf0, hz]
      rw [hres]
      refine ⟨fun _ => ⟨hf, ?_⟩, fun _ => rfl⟩
      intro k hk hkc
      obtain ⟨e, he, rfl⟩ := List.mem_map.mp hk
      have := hall e he
      omega
    · obtain ⟨e, hget, hmem, hle, hmax⟩ := stdmap.upper_bound_pred t.m_points c hw hz
      have hres : is_alternative_block_allowed t c f = decide (e.1 < f) := by
        simp [is_alternative_block_allowed, hf0, hz, hget]
      rw [hres, decide_eq_true_iff]
      constructor
      · intro hlt
        refine ⟨hf, ?_⟩
        intro k hk hkc
        obtain ⟨e1, he1, rfl⟩ := List.mem_map.mp hk
        exact lt_of_le_of_lt (hmax e1 he1 hkc) hlt
      · rintro ⟨_, hall⟩
        exact hall e.1 (List.mem_map.mpr ⟨e, hmem, rfl⟩) hle

/-- Every height of the table is a height of the table after `add_checkpoint`. -/
theorem add_checkpoint_keys (E : collaborators) (t : checkpoints) (h : Nat)
    (s : String) (k : Nat) (hk : k ∈ stdmap.keys t.m_points) :
    k ∈ stdmap.keys (add_checkpoint E t h s).2.m_points := by
  obtain ⟨e, he⟩ := Option.isSome_iff_exists.mp (stdmap.find_isSome_iff.mpr hk)
  have hkey := stdmap.find_key he
  have hm : t.maps k e.2 := by
    show stdmap.find t.m_points k = some (k, e.2)
    rw [he, ← hkey]
  have hkeep := add_checkpoint_keeps E t h s k e.2 hm
  apply stdmap.find_isSome_iff.mp
  unfold checkpoints.maps at hkeep
  rw [hkeep]
  rfl

end cryptonote

/-! ## The claims about `init_default_checkpoints` and about forks -/

namespace cryptonote

open crypto

/-- C18 (default checkpoints): for the test and the staging network
`init_default_checkpoints` returns true and hands back the table it was given,
so an empty table stays empty.  For the production network on the empty table
it returns true and the table is not empty, holding every hard-coded
checkpoint, for every hex codec that decodes the hard-coded strings; the codec
of the spec does. -/
theorem init_default_checkpoints_by_network (E : collaborators) :
    (∀ t : checkpoints, init_default_checkpoints E t network_type.TESTNET = (true, t)) ∧
    (∀ t : checkpoints, init_default_checkpoints E t network_type.STAGENET = (true, t)) ∧
    ((∀ l ∈ default_checkpoint_lines, (E.hex_to_pod l.2).isSome = true) →
      (init_default_checkpoints E checkpoints.new network_type.MAINNET).1 = true ∧
      (init_default_checkpoints E checkpoints.new network_type.MAINNET).2.m_points ≠ [] ∧
      ∀ l ∈ default_checkpoint_lines, ∃ x, E.hex_to_pod l.2 = some x ∧
        (init_default_checkpoints E checkpoints.new network_type.MAINNET).2.maps l.1 x) ∧
    ((∀ l ∈ default_checkpoint_lines, (sample.hex_to_pod l.2).isSome = true) ∧
      (init_default_checkpoints sample.bare checkpoints.new network_type.MAINNET).1 = true ∧
      (init_default_checkpoints sample.bare checkpoints.new
        network_type.MAINNET).2.m_points.length = 33) := by
  refine ⟨fun t => rfl, fun t => rfl, ?_, by decide⟩
  intro hdec
  have hinit : init_default_checkpoints E checkpoints.new network_type.MAINNET
      = add_checkpoint_lines E checkpoints.new default_checkpoint_lines := rfl
  have hok : (add_checkpoint_lines E checkpoints.new default_checkpoint_lines).1 = true := by
    apply add_checkpoint_lines_succeeds
    · intro l hl
      obtain ⟨x, hx⟩ := Option.isSome_iff_exists.mp (hdec l hl)
      exact ⟨x, hx, Or.inl rfl⟩
    · intro l hl l1 hl1 heq
      rw [default_lines_consistent l hl l1 hl1 heq]
  have hpresent : ∀ l ∈ default_checkpoint_lines, ∃ x, E.hex_to_pod l.2 = some x ∧
      (add_checkpoint_lines E checkpoints.new default_checkpoint_lines).2.maps l.1 x := by
    intro l hl
    obtain ⟨x, hx⟩ := Option.isSome_iff_exists.mp (hdec l hl)
    refine ⟨x, hx, ?_⟩
    apply add_checkpoint_lines_present E l x hx _ checkpoints.new hl _ (Or.inl rfl) hok
    intro l1 hl1 heq y hy
    rw [default_lines_consistent l1 hl1 l hl heq, hx] at hy
    exact (Option.some.inj hy).symm
  rw [hinit]
  refine ⟨hok, ?_, hpresent⟩
  obtain ⟨x, _, hm⟩ := hpresent
    (1, "851b5a2f42d7331c7caaaadfffcb9ffd74b5550e4511ba63eb1896ac4a52bf23") (by decide)
  exact maps_nonempty hm

/-- Witness of C18: the codec of the spec decodes the hard-coded strings, and
on the production network the empty table ends non-empty. -/
theorem init_default_checkpoints_by_network_witness :
    (∀ l ∈ default_checkpoint_lines, (sample.bare.hex_to_pod l.2).isSome = true) ∧
    (init_default_checkpoints sample.bare checkpoints.new network_type.MAINNET).1 = true ∧
    (init_default_checkpoints sample.bare checkpoints.new
      network_type.MAINNET).2.m_points ≠ [] :=
  ⟨by decide,
    ((init_default_checkpoints_by_network sample.bare).2.2.1 (by decide)).1,
    ((init_default_checkpoints_by_network sample.bare).2.2.1 (by decide)).2.1⟩

/-- C19 (adding only restricts forks): on every table, for every height and
string, tip height `c` and fork height `f`: if `is_alternative_block_allowed(c, f)`
is true on the table after `add_checkpoint`, it was true on the table before;
this holds whether or not the call succeeds, so in particular after a
successful call with a valid hash. -/
theorem add_checkpoint_restricts_forks (E : collaborators) (t : checkpoints)
    (hw : t.WF) (h : Nat) (s : String) (c f : Nat)
    (hafter : is_alternative_block_allowed (add_checkpoint E t h s).2 c f = true) :
    is_alternative_block_allowed t c f = true := by
  have hw1 : (add_checkpoint E t h s).2.WF := WF_preserved E t h s hw
  obtain ⟨hf, hall⟩ := (allowed_iff _ hw1 c f).mp hafter
  refine (allowed_iff t hw c f).mpr ⟨hf, ?_⟩
  intro k hk hkc
  exact hall k (add_checkpoint_keys E t h s k hk) hkc

/-- Witness of C19: a checkpoint at 150 added to the table with checkpoints at
100 and 200, tip 175 and fork 160. -/
theorem add_checkpoint_restricts_forks_witness :
    (sample.table_100_200.WF ∧
      (add_checkpoint sample.bare sample.table_100_200 150 sample.hex10).1 = true ∧
      is_alternative_block_allowed
        (add_checkpoint sample.bare sample.table_100_200 150 sample.hex10).2 175 160 = true) ∧
    is_alternative_block_allowed sample.table_100_200 175 160 = true :=
  ⟨⟨by decide, by decide, by decide⟩,
    add_checkpoint_restricts_forks sample.bare sample.table_100_200 (by decide) 150
      sample.hex10 175 160 (by decide)⟩

end cryptonote
